import Mathlib

/-!
# Dispatch tree of `service/internal/statetree`

A shallow embedding of `statetree.go`, `context.go` and `builder.go`:

* Go `interface{}` values are the closed variant `Value` (nil, bool, float64, int, int64,
  `json.Number`, string, `[]interface{}`, `map[string]interface{}`);
* a Go map is an association list whose lookup returns the first entry of a key; the order of
  the list is the order in which the keys were first inserted, which a Go map does not record;
* the order in which a `range` statement visits the keys of a map is not specified by Go: it is
  supplied by `GoRuntime.rangeRank`, together with the two other implementation-dependent
  ingredients (out-of-range float to integer conversion, `%v` formatting of a float);
* a run-time panic is the outcome `Outcome.panicked`;
* handlers are pure functions of their argument; child pointers stored in `Select` are non-nil,
  as are all the ones made by `New` and by the builder; trees are finite;
* the channel of capacity one of a context is the list of the values it holds; a goroutine
  started by `AsyncReturn` is a pending `Complete` call that a scheduler move runs in one step,
  the call being made under the lock of the context;
* the builder is a value: a builder handed to `Branch` is not used afterwards;
* `print` is the text it appends to the string builder, as a function of its arguments.
-/

namespace Statetree

/-! ## Values -/

/-- The wildcard key: `const DefaultKey = "*"`. -/
def DefaultKey : String := "*"

/-- Dynamic values of type `interface{}`. A finite `float64` is carried by its exact rational
value; `int` and `int64` are distinct dynamic types; `number` is `json.Number`. -/
inductive Value where
  | nil
  | bool (b : Bool)
  | float64 (v : ℚ)
  | int (n : Int)
  | int64 (n : Int)
  | number (s : String)
  | str (s : String)
  | arr (xs : List Value)
  | obj (m : List (String × Value))

/-- The type `map[string]interface{}`. -/
abbrev JsonMap := List (String × Value)

/-- The hashable dynamic values, those that can be a key of `map[interface{}]*StateTree`.
Two keys are equal exactly when dynamic type and value agree. -/
inductive SelectKey where
  | nil
  | bool (b : Bool)
  | float64 (v : ℚ)
  | int (n : Int)
  | int64 (n : Int)
  | number (s : String)
  | str (s : String)
  deriving DecidableEq

/-- The key a value is hashed to; `none` for slices and maps, whose use as a map key panics
(`runtime error: hash of unhashable type`). -/
def Value.toKey? : Value → Option SelectKey
  | .nil => some .nil
  | .bool b => some (.bool b)
  | .float64 v => some (.float64 v)
  | .int n => some (.int n)
  | .int64 n => some (.int64 n)
  | .number s => some (.number s)
  | .str s => some (.str s)
  | .arr _ => none
  | .obj _ => none

/-- The three `range` statements of `Run`, and the one of `print`. -/
inductive RangeSite where
  | optionalScan
  | supportedKeys
  | optionalKeys
  | printEntries
  deriving DecidableEq

/-- What Go leaves to the implementation. -/
structure GoRuntime where
  /-- Result of `int64(v)` when the truncation of `v` is not an `int64`. -/
  int64Overflow : ℚ → Int
  /-- Rendering of a `float64` by the verb `%v`. -/
  formatFloat : ℚ → String
  /-- Rank of a key in the `range` executed at a site, at a depth of the walk: the loop visits
  the keys by increasing rank. -/
  rangeRank : RangeSite → Nat → SelectKey → Nat

/-- Truncation toward zero of a rational. -/
def truncQ (v : ℚ) : Int := Int.tdiv v.num (v.den : Int)

/-- Conversion `int64(v)` of a `float64`. -/
def int64OfFloat64 (rt : GoRuntime) (v : ℚ) : Int :=
  if -(2 : Int) ^ 63 ≤ truncQ v ∧ truncQ v < (2 : Int) ^ 63 then truncQ v else rt.int64Overflow v

/-- Nearest natural number with at most 53 significant bits, ties to even. -/
def roundNat53 (a : Nat) : Nat :=
  if a < 2 ^ 53 then a
  else
    let s := Nat.log2 a - 52
    let q := a / 2 ^ s
    let r := a % 2 ^ s
    let half := 2 ^ (s - 1)
    let q1 := if r < half then q else if half < r then q + 1 else if q % 2 = 0 then q else q + 1
    q1 * 2 ^ s

/-- Conversion `float64(i)` of an `int64`. -/
def float64OfInt64 (i : Int) : ℚ :=
  if i < 0 then -((roundNat53 i.natAbs : Nat) : ℚ) else ((roundNat53 i.natAbs : Nat) : ℚ)

/-- Source: `convertTokenToKey`. -/
def convertTokenToKey (rt : GoRuntime) (token : Value) : Value :=
  match token with
  | .nil => .str DefaultKey
  | .float64 v =>
    if v = float64OfInt64 (int64OfFloat64 rt v) then .int64 (int64OfFloat64 rt v) else .float64 v
  | .bool v => .bool v
  | .str v => if v = "" then .str DefaultKey else .str v
  | .obj v =>
    match v.lookup "Value" with
    | some (.str data) => if data ≠ "" then .str data else .obj v
    | _ => .obj v
  | v => v

/-- Source: `isNil`. -/
def isNil (v : Value) : Bool :=
  match v with
  | .nil => true
  | .number _ => false
  | .obj _ => false
  | .arr _ => false
  | _ => false

/-- Source: `isEmptyString`. -/
def isEmptyString (v : Value) : Bool :=
  match v with
  | .str s => decide (s = "")
  | _ => false

/-- Rendering of a key by `fmt.Sprintf("%v", k)`. -/
def SelectKey.format (rt : GoRuntime) : SelectKey → String
  | .nil => "<nil>"
  | .bool true => "true"
  | .bool false => "false"
  | .float64 v => rt.formatFloat v
  | .int n => toString n
  | .int64 n => toString n
  | .number s => s
  | .str s => s

/-! ## Execution context -/

/-- Source: `Context`; `asyncReturnCh` is the content of the channel of capacity one. -/
structure Context where
  JsonData : Option JsonMap
  ObjectRefs : Option JsonMap
  Completed : Bool
  Result : Value
  asyncReturnCh : List Value

/-- Source: `NewContext`. -/
def NewContext (jsonData objectRefs : Option JsonMap) : Context :=
  { JsonData := jsonData, ObjectRefs := objectRefs, Completed := false, Result := .nil,
    asyncReturnCh := [] }

/-- Source: `Context.GetJsonValue`; `none` is the pair `(nil, false)`. -/
def Context.GetJsonValue (ctx : Context) (key : String) : Option Value :=
  match ctx.JsonData with
  | none => none
  | some data => data.lookup key

/-! ## Tree -/

/-- Type `ContextFunc`; the argument is a pointer that may be nil. -/
abbrev ContextFunc := Option Context → Value

/-- Type `JsonFunc`; the argument is a map that may be nil. -/
abbrev JsonFunc := Option JsonMap → Value

/-- Source: `StateTree`. A handler field is `none` when the function value is nil. -/
inductive StateTree where
  | mk (Key : String) (Select : List (SelectKey × StateTree))
      (OptionalParams : List (String × Bool)) (ContextFunc : Option ContextFunc)
      (JsonFunc : Option JsonFunc) (ErrorMessage : String)

namespace StateTree

/-- Field `Key`. -/
def Key : StateTree → String
  | .mk k _ _ _ _ _ => k

/-- Field `Select`. -/
def Select : StateTree → List (SelectKey × StateTree)
  | .mk _ s _ _ _ _ => s

/-- Field `OptionalParams`. -/
def OptionalParams : StateTree → List (String × Bool)
  | .mk _ _ o _ _ _ => o

/-- Field `ContextFunc`. -/
def ContextFunc : StateTree → Option Statetree.ContextFunc
  | .mk _ _ _ c _ _ => c

/-- Field `JsonFunc`. -/
def JsonFunc : StateTree → Option Statetree.JsonFunc
  | .mk _ _ _ _ j _ => j

/-- Field `ErrorMessage`. -/
def ErrorMessage : StateTree → String
  | .mk _ _ _ _ _ e => e

end StateTree

/-- Source: `New`. -/
def New : StateTree := .mk "" [] [] none none ""

/-- The keys of a `Select` map. -/
def selectKeys (sel : List (SelectKey × StateTree)) : List SelectKey := sel.map Prod.fst

/-- Map index `Select[k]` with the comma-ok form. -/
def selectGet (sel : List (SelectKey × StateTree)) (k : SelectKey) : Option StateTree :=
  sel.lookup k

/-- Map index `OptionalParams[key]`: false for a missing key. -/
def isOptional (opt : List (String × Bool)) (key : String) : Bool :=
  (opt.lookup key).getD false

/-- Order in which a `range` over a map with these keys yields them. -/
def rangeOrder (rt : GoRuntime) (site : RangeSite) (depth : Nat) (keys : List SelectKey) :
    List SelectKey :=
  keys.insertionSort (fun a b => rt.rangeRank site depth a ≤ rt.rangeRank site depth b)

/-! ## Evaluation -/

/-- The test of lines 56-57 on the field of an optional child: the field exists, is not nil and
is not the empty string. -/
def optionalPresent (ctx : Context) (key : String) : Bool :=
  match ctx.GetJsonValue key with
  | none => false
  | some .nil => false
  | some paramToken => !isNil paramToken && !isEmptyString paramToken

/-- The body of the loop of lines 49-63 for one key: the key is taken when it is not nil, its
rendering is an optional parameter and that parameter is present in the request. -/
def optionalMatch (rt : GoRuntime) (opt : List (String × Bool)) (ctx : Context)
    (k : SelectKey) : Bool :=
  match k with
  | .nil => false
  | k => isOptional opt (k.format rt) && optionalPresent ctx (k.format rt)

/-- Lines 49-63: the first key in iteration order that passes the test. -/
def scanOptional (rt : GoRuntime) (depth : Nat) (keys : List SelectKey)
    (opt : List (String × Bool)) (ctx : Context) : Option SelectKey :=
  (rangeOrder rt .optionalScan depth keys).find? (optionalMatch rt opt ctx)

/-- What lines 36-46 leave behind: a panic, or `keyToLookup` and the key of `next` if any. -/
inductive Direct where
  | panic
  | ok (keyToLookup : SelectKey) (next : Option SelectKey)

/-- Lines 36-46: direct lookup of the canonical key of the discriminator field. -/
def directLookup (rt : GoRuntime) (key : String) (keys : List SelectKey)
    (ctx : Option Context) : Direct :=
  if key ≠ "" then
    match ctx with
    | none => .ok (.str DefaultKey) none
    | some c =>
      match c.GetJsonValue key with
      | none => .ok (.str DefaultKey) none
      | some token =>
        match (convertTokenToKey rt token).toKey? with
        | none => .panic
        | some k => .ok k (if k ∈ keys then some k else none)
  else .ok (.str DefaultKey) none

/-- Lines 73-91: the rendered list of supported keys. -/
def supportedKeysList (rt : GoRuntime) (depth : Nat) (keys : List SelectKey)
    (opt : List (String × Bool)) : String :=
  let plain := ((rangeOrder rt .supportedKeys depth keys).map (SelectKey.format rt)).filter
    (fun keyStr => decide (keyStr ≠ DefaultKey) && !isOptional opt keyStr)
  let optional := (((rangeOrder rt .optionalKeys depth keys).map (SelectKey.format rt)).filter
    (fun keyStr => isOptional opt keyStr)).map (fun keyStr => keyStr ++ " (optional)")
  let supportedKeys := plain ++ optional
  if 0 < supportedKeys.length then String.intercalate ", " supportedKeys else "none"

/-- Line 93: the diagnostic stored in `ErrorMessage`. -/
def errorMessage (rt : GoRuntime) (depth : Nat) (key : String) (keys : List SelectKey)
    (opt : List (String × Bool)) (keyToLookup : SelectKey) : String :=
  "Invalid value \x27" ++ keyToLookup.format rt ++ "\x27 for key \x27" ++ key ++
    "\x27. Supported values: [" ++ supportedKeysList rt depth keys opt ++ "]"

/-- Result of one iteration of the loop of `Run` at a node without handler. -/
inductive Step where
  | descend (k : SelectKey)
  | fail (message : String)
  | panic

/-- Lines 36-95: one iteration of the loop at a node with discriminator `key`, children keys
`keys` and optional set `opt`: the key of the child `next`, or the failure and its diagnostic. -/
def selectNext (rt : GoRuntime) (depth : Nat) (key : String) (keys : List SelectKey)
    (opt : List (String × Bool)) (ctx : Option Context) : Step :=
  match directLookup rt key keys ctx with
  | .panic => .panic
  | .ok _ (some k) => .descend k
  | .ok keyToLookup none =>
    match ctx with
    | none => .fail (errorMessage rt depth key keys opt keyToLookup)
    | some c =>
      match scanOptional rt depth keys opt c with
      | some k => .descend k
      | none =>
        if .str DefaultKey ∈ keys then .descend (.str DefaultKey)
        else .fail (errorMessage rt depth key keys opt keyToLookup)

/-- What a call of `Run` does: it returns the result of a handler, or it stores a diagnostic
on the node where no branch matched and returns nil, or it panics. -/
inductive Outcome where
  | returned (result : Value)
  | failed (message : String)
  | panicked

/-- Lines 100-108: the call of the handler of the node the walk stopped at. A data-handler
reads `ctx.JsonData`, which panics on a nil context. -/
def callHandler (cf : Option ContextFunc) (jf : Option JsonFunc) (ctx : Option Context) :
    Outcome :=
  match cf with
  | some f => .returned (f ctx)
  | none =>
    match jf with
    | some g =>
      match ctx with
      | none => .panicked
      | some c => .returned (g c.JsonData)
    | none => .returned .nil

mutual
/-- Source: `StateTree.Run`; `depth` counts the descents made so far. -/
def Run (rt : GoRuntime) (depth : Nat) : StateTree → Option Context → Outcome
  | .mk key sel opt cf jf _, ctx =>
    if cf.isSome || jf.isSome then callHandler cf jf ctx
    else
      match selectNext rt depth key (selectKeys sel) opt ctx with
      | .descend k => RunSelect rt depth k sel ctx
      | .fail message => .failed message
      | .panic => .panicked
/-- The descent `current = next` with `next = Select[k]`, followed by the rest of the walk. The
empty case is not reached from `Run`: `selectNext` only yields keys of `Select`. -/
def RunSelect (rt : GoRuntime) (depth : Nat) (k : SelectKey) :
    List (SelectKey × StateTree) → Option Context → Outcome
  | [], _ => .panicked
  | (k1, t) :: rest, ctx =>
    if k1 = k then Run rt (depth + 1) t ctx else RunSelect rt depth k rest ctx
end

/-! ## Builder -/

/-- Map assignment `Select[key] = child`. -/
def selectSet (sel : List (SelectKey × StateTree)) (key : SelectKey) (child : StateTree) :
    List (SelectKey × StateTree) :=
  match sel with
  | [] => [(key, child)]
  | (k, t) :: rest => if k = key then (key, child) :: rest else (k, t) :: selectSet rest key child

/-- Map assignment `OptionalParams[key] = true`. -/
def optionalSet (opt : List (String × Bool)) (key : String) : List (String × Bool) :=
  match opt with
  | [] => [(key, true)]
  | (k, b) :: rest => if k = key then (key, true) :: rest else (k, b) :: optionalSet rest key

/-- Source: `StateTreeBuilder`. -/
structure StateTreeBuilder where
  root : StateTree

namespace StateTreeBuilder

/-- Source: `Create`. -/
def Create : StateTreeBuilder := { root := New }

/-- Source: `StateTreeBuilder.Key`. -/
def Key (stb : StateTreeBuilder) (key : String) : StateTreeBuilder :=
  match stb.root with
  | .mk _ sel opt cf jf e => { root := .mk key sel opt cf jf e }

/-- Source: `StateTreeBuilder.Leaf`. -/
def Leaf (stb : StateTreeBuilder) (key : String) (fn : Option ContextFunc) : StateTreeBuilder :=
  match stb.root with
  | .mk k sel opt cf jf e =>
    { root := .mk k (selectSet sel (.str key) (.mk "" [] [] fn none "")) opt cf jf e }

/-- Source: `StateTreeBuilder.LeafJson`. -/
def LeafJson (stb : StateTreeBuilder) (key : String) (fn : Option JsonFunc) : StateTreeBuilder :=
  match stb.root with
  | .mk k sel opt cf jf e =>
    { root := .mk k (selectSet sel (.str key) (.mk "" [] [] none fn "")) opt cf jf e }

/-- Source: `StateTreeBuilder.DefaultLeaf`. -/
def DefaultLeaf (stb : StateTreeBuilder) (fn : Option ContextFunc) : StateTreeBuilder :=
  stb.Leaf DefaultKey fn

/-- Source: `StateTreeBuilder.DefaultLeafJson`. -/
def DefaultLeafJson (stb : StateTreeBuilder) (fn : Option JsonFunc) : StateTreeBuilder :=
  stb.LeafJson DefaultKey fn

/-- Source: `StateTreeBuilder.Optional`. -/
def Optional (stb : StateTreeBuilder) (key : String) (fn : Option ContextFunc) :
    StateTreeBuilder :=
  match stb.root with
  | .mk k sel opt cf jf e =>
    Leaf { root := .mk k sel (optionalSet opt key) cf jf e } key fn

/-- Source: `StateTreeBuilder.OptionalJson`. -/
def OptionalJson (stb : StateTreeBuilder) (key : String) (fn : Option JsonFunc) :
    StateTreeBuilder :=
  match stb.root with
  | .mk k sel opt cf jf e =>
    LeafJson { root := .mk k sel (optionalSet opt key) cf jf e } key fn

/-- Source: `StateTreeBuilder.Build`. -/
def Build (stb : StateTreeBuilder) : StateTree := stb.root

/-- Source: `StateTreeBuilder.Branch`. -/
def Branch (stb : StateTreeBuilder) (key : String) (builder : StateTreeBuilder) :
    StateTreeBuilder :=
  match stb.root with
  | .mk k sel opt cf jf e =>
    { root := .mk k (selectSet sel (.str key) builder.Build) opt cf jf e }

/-- Source: `StateTreeBuilder.DefaultBranch`. -/
def DefaultBranch (stb : StateTreeBuilder) (builder : StateTreeBuilder) : StateTreeBuilder :=
  stb.Branch DefaultKey builder

end StateTreeBuilder


/-! ## State of the tree after a run, and the handlers called -/

mutual
/-- The tree after `Run`: the only assignment `Run` makes is `current.ErrorMessage = ...`
of line 93, at the node where no branch matched. -/
def RunTree (rt : GoRuntime) (depth : Nat) : StateTree → Option Context → StateTree
  | .mk key sel opt cf jf e, ctx =>
    if cf.isSome || jf.isSome then .mk key sel opt cf jf e
    else
      match selectNext rt depth key (selectKeys sel) opt ctx with
      | .descend k => .mk key (RunTreeSelect rt depth k sel ctx) opt cf jf e
      | .fail message => .mk key sel opt cf jf message
      | .panic => .mk key sel opt cf jf e
/-- The children after the walk went on in the child `Select[k]`. -/
def RunTreeSelect (rt : GoRuntime) (depth : Nat) (k : SelectKey) :
    List (SelectKey × StateTree) → Option Context → List (SelectKey × StateTree)
  | [], _ => []
  | (k1, t) :: rest, ctx =>
    if k1 = k then (k1, RunTree rt (depth + 1) t ctx) :: rest
    else (k1, t) :: RunTreeSelect rt depth k rest ctx
end

mutual
/-- The nodes whose handler `Run` calls, in order: lines 100-106 call the handler of the node
the loop stopped at, unless `ctx.JsonData` panics before the call. -/
def handlerCalls (rt : GoRuntime) (depth : Nat) : StateTree → Option Context → List StateTree
  | .mk key sel opt cf jf e, ctx =>
    if cf.isSome || jf.isSome then
      match cf, ctx with
      | some _, _ => [.mk key sel opt cf jf e]
      | none, some _ => [.mk key sel opt cf jf e]
      | none, none => []
    else
      match selectNext rt depth key (selectKeys sel) opt ctx with
      | .descend k => handlerCallsSelect rt depth k sel ctx
      | .fail _ => []
      | .panic => []
/-- The handlers called once the walk went on in the child `Select[k]`. -/
def handlerCallsSelect (rt : GoRuntime) (depth : Nat) (k : SelectKey) :
    List (SelectKey × StateTree) → Option Context → List StateTree
  | [], _ => []
  | (k1, t) :: rest, ctx =>
    if k1 = k then handlerCalls rt (depth + 1) t ctx else handlerCallsSelect rt depth k rest ctx
end

mutual
/-- The nodes at which the body of the loop of `Run` is executed, in order: the nodes the walk
passes through as internal nodes. -/
def passedThrough (rt : GoRuntime) (depth : Nat) : StateTree → Option Context → List StateTree
  | .mk key sel opt cf jf e, ctx =>
    if cf.isSome || jf.isSome then []
    else
      .mk key sel opt cf jf e ::
        match selectNext rt depth key (selectKeys sel) opt ctx with
        | .descend k => passedThroughSelect rt depth k sel ctx
        | .fail _ => []
        | .panic => []
/-- The internal nodes passed through once the walk went on in the child `Select[k]`. -/
def passedThroughSelect (rt : GoRuntime) (depth : Nat) (k : SelectKey) :
    List (SelectKey × StateTree) → Option Context → List StateTree
  | [], _ => []
  | (k1, t) :: rest, ctx =>
    if k1 = k then passedThrough rt (depth + 1) t ctx
    else passedThroughSelect rt depth k rest ctx
end

/-! ## Operations of the execution context -/

/-- Map assignment `m[key] = value` on a `map[string]interface{}`. -/
def jsonSet (m : JsonMap) (key : String) (value : Value) : JsonMap :=
  match m with
  | [] => [(key, value)]
  | (k, v) :: rest => if k = key then (key, value) :: rest else (k, v) :: jsonSet rest key value

/-- Source: `Context.GetObjectRef`; `none` is the pair `(nil, false)`. -/
def Context.GetObjectRef (ctx : Context) (key : String) : Option Value :=
  match ctx.ObjectRefs with
  | none => none
  | some refs => refs.lookup key

/-- Source: `Context.SetObjectRef`. -/
def Context.SetObjectRef (ctx : Context) (key : String) (value : Value) : Context :=
  match ctx.ObjectRefs with
  | none => { ctx with ObjectRefs := some (jsonSet [] key value) }
  | some refs => { ctx with ObjectRefs := some (jsonSet refs key value) }

/-- The statement `select { case ch <- v: default: }` on a channel of capacity one on which no
receiver is blocked: the new content when the value is sent, `none` when it is dropped. -/
def chanTrySend (ch : List Value) (v : Value) : Option (List Value) :=
  if ch.length < 1 then some (ch ++ [v]) else none

/-- Source: `Context.Complete`. -/
def Context.Complete (ctx : Context) (result : Value) : Context :=
  if !ctx.Completed then
    match chanTrySend ctx.asyncReturnCh result with
    | some ch => { ctx with Completed := true, Result := result, asyncReturnCh := ch }
    | none => { ctx with Completed := true, Result := result }
  else ctx

/-- The values that `Complete` sends into the channel: one when the send case of its `select`
is taken, none otherwise. -/
def Context.CompleteSends (ctx : Context) (result : Value) : List Value :=
  if !ctx.Completed then
    match chanTrySend ctx.asyncReturnCh result with
    | some _ => [result]
    | none => []
  else []

/-- Source: `Context.IsCompleted`. -/
def Context.IsCompleted (ctx : Context) : Bool := ctx.Completed

/-- Source: `Context.GetResult`. -/
def Context.GetResult (ctx : Context) : Value := ctx.Result

/-- Source: `Context.GetAsyncResult`: the content of the channel it returns. -/
def Context.GetAsyncResult (ctx : Context) : List Value := ctx.asyncReturnCh

/-- A receive `<-ctx.GetAsyncResult()` by a caller: the value taken and the context left, or
`none` when the channel is empty and the receive has to wait. -/
def Context.receive (ctx : Context) : Option (Value × Context) :=
  match ctx.asyncReturnCh with
  | [] => none
  | v :: rest => some (v, { ctx with asyncReturnCh := rest })

/-- The operations that change a context: the two mutating methods and a receive on the
completion channel (a receive on the empty channel leaves the context as it is). -/
inductive ContextOp where
  | Complete (result : Value)
  | SetObjectRef (key : String) (value : Value)
  | Receive

/-- The context after one operation. -/
def Context.apply (ctx : Context) : ContextOp → Context
  | .Complete result => ctx.Complete result
  | .SetObjectRef key value => ctx.SetObjectRef key value
  | .Receive =>
    match ctx.receive with
    | some (_, ctx1) => ctx1
    | none => ctx

/-- The context after a sequence of operations. -/
def Context.applyAll (ctx : Context) : List ContextOp → Context
  | [] => ctx
  | op :: ops => (ctx.apply op).applyAll ops

/-- The values sent into the completion channel along a sequence of operations. -/
def Context.sentAlong (ctx : Context) : List ContextOp → List Value
  | [] => []
  | .Complete result :: ops =>
    ctx.CompleteSends result ++ (ctx.apply (.Complete result)).sentAlong ops
  | op :: ops => (ctx.apply op).sentAlong ops

/-- The result of the first `Complete` of a sequence of operations. -/
def firstComplete : List ContextOp → Option Value
  | [] => none
  | .Complete result :: _ => some result
  | _ :: ops => firstComplete ops

/-- The values that the receives of a sequence of operations take out of the completion
channel, in order. -/
def Context.receivedAlong (ctx : Context) : List ContextOp → List Value
  | [] => []
  | .Receive :: ops =>
    match ctx.receive with
    | some (v, ctx1) => v :: ctx1.receivedAlong ops
    | none => ctx.receivedAlong ops
  | op :: ops => (ctx.apply op).receivedAlong ops

/-- Source: `Context.TryGet`. -/
def Context.TryGet (ctx : Context) (key : String) : Option Value := ctx.GetJsonValue key

/-- Source: `Context.Get`. -/
def Context.Get (ctx : Context) (key : String) : Value :=
  match ctx.GetJsonValue key with
  | some value => value
  | none => .nil

/-- Source: `Context.GetString`. -/
def Context.GetString (ctx : Context) (key : String) : String :=
  match ctx.GetJsonValue key with
  | some (.str s) => s
  | _ => ""

/-- The call `strconv.ParseInt(s, 10, 64)` made by `json.Number.Int64`: the value when the
error is nil. An optional sign is followed by one or more decimal digits, and the value has to
be an `int64`. -/
def parseInt64 (s : String) : Option Int :=
  match s.toList with
  | [] => none
  | c :: rest =>
    let neg := decide (c = '-')
    let digits := if c = '+' ∨ c = '-' then rest else c :: rest
    if digits.isEmpty || !digits.all Char.isDigit then none
    else
      let un : Nat := digits.foldl (fun acc d => 10 * acc + (d.toNat - 48)) 0
      if neg then (if un ≤ 2 ^ 63 then some (-(un : Int)) else none)
      else (if un < 2 ^ 63 then some (un : Int) else none)

/-- Source: `Context.GetInt`, where `int` has 64 bits. -/
def Context.GetInt (rt : GoRuntime) (ctx : Context) (key : String) : Int :=
  match ctx.GetJsonValue key with
  | some (.float64 v) => int64OfFloat64 rt v
  | some (.int v) => v
  | some (.number v) =>
    match parseInt64 v with
    | some num => num
    | none => 0
  | _ => 0

/-- Source: `Context.GetFloat`. The parameter `parseFloat64` is `strconv.ParseFloat(s, 64)`,
called by `json.Number.Float64`: the value when the error is nil. -/
def Context.GetFloat (parseFloat64 : String → Option ℚ) (ctx : Context) (key : String) : ℚ :=
  match ctx.GetJsonValue key with
  | some (.float64 v) => v
  | some (.int v) => float64OfInt64 v
  | some (.number v) =>
    match parseFloat64 v with
    | some num => num
    | none => 0
  | _ => 0

/-- Source: `Context.GetBool`. -/
def Context.GetBool (ctx : Context) (key : String) : Bool :=
  match ctx.GetJsonValue key with
  | some (.bool b) => b
  | _ => false

/-- Source: `Context.GetArray`; `none` is the nil slice. -/
def Context.GetArray (ctx : Context) (key : String) : Option (List Value) :=
  match ctx.GetJsonValue key with
  | some (.arr xs) => some xs
  | _ => none

/-- Source: `Context.GetObject`; `none` is the nil map. -/
def Context.GetObject (ctx : Context) (key : String) : Option JsonMap :=
  match ctx.GetJsonValue key with
  | some (.obj m) => some m
  | _ => none

/-! ## Asynchronous completion -/

/-- A context together with the goroutines started by `AsyncReturn` that have not run yet, each
one a pending call `ctx.Complete(result)`, and the values that the caller waiting on
`GetAsyncResult()` has received so far. -/
structure AsyncState where
  ctx : Context
  goroutines : List Value
  received : List Value

/-- Source: `Context.AsyncReturn`: the `go` statement adds a goroutine that has not run yet,
and the method returns nil. -/
def AsyncState.AsyncReturn (s : AsyncState) (result : Value) : AsyncState × Value :=
  ({ s with goroutines := s.goroutines ++ [result] }, .nil)

/-- What the scheduler can do next: run the pending goroutine of some index, or let the waiting
caller receive from the channel. -/
inductive AsyncMove where
  | run (i : Nat)
  | receive

/-- One move of the scheduler, `none` when the move is not enabled: a goroutine runs its
`Complete` call as one step, since the call holds the lock of the context; the receive is
enabled when the channel holds a value. -/
def AsyncState.step (s : AsyncState) : AsyncMove → Option AsyncState
  | .run i =>
    match s.goroutines.get? i with
    | some result =>
      some { s with ctx := s.ctx.Complete result, goroutines := s.goroutines.eraseIdx i }
    | none => none
  | .receive =>
    match s.ctx.receive with
    | some (v, ctx1) => some { s with ctx := ctx1, received := s.received ++ [v] }
    | none => none

/-- A schedule: the state after a sequence of moves, `none` when one of them is not enabled. -/
def AsyncState.exec (s : AsyncState) : List AsyncMove → Option AsyncState
  | [] => some s
  | m :: ms =>
    match s.step m with
    | some s1 => s1.exec ms
    | none => none

/-! ## Shape of the nodes of a tree -/

mutual
/-- Whether every node of the tree passes the test. -/
def StateTree.all (p : StateTree → Bool) : StateTree → Bool
  | .mk key sel opt cf jf e => p (.mk key sel opt cf jf e) && allChildren p sel
/-- Whether every node of every child passes the test. -/
def allChildren (p : StateTree → Bool) : List (SelectKey × StateTree) → Bool
  | [] => true
  | (_, t) :: rest => t.all p && allChildren p rest
end

/-- The leaf of the invariant of the data model: a handler set, children empty. -/
def isLeafShape (n : StateTree) : Bool :=
  (n.ContextFunc.isSome || n.JsonFunc.isSome) && n.Select.isEmpty

/-- The internal node of the invariant of the data model: children non-empty, no handler. -/
def isInternalShape (n : StateTree) : Bool :=
  !n.ContextFunc.isSome && !n.JsonFunc.isSome && !n.Select.isEmpty

/-- A node without handler, with or without children. -/
def hasNoHandler (n : StateTree) : Bool :=
  !n.ContextFunc.isSome && !n.JsonFunc.isSome

/-- The builders that the builder API produces with non-nil handlers. A builder given to
`Branch` is not used any more afterwards. -/
inductive Built : StateTreeBuilder → Prop where
  | Create : Built StateTreeBuilder.Create
  | Key (stb : StateTreeBuilder) (key : String) : Built stb → Built (stb.Key key)
  | Leaf (stb : StateTreeBuilder) (key : String) (fn : ContextFunc) :
      Built stb → Built (stb.Leaf key (some fn))
  | LeafJson (stb : StateTreeBuilder) (key : String) (fn : JsonFunc) :
      Built stb → Built (stb.LeafJson key (some fn))
  | DefaultLeaf (stb : StateTreeBuilder) (fn : ContextFunc) :
      Built stb → Built (stb.DefaultLeaf (some fn))
  | DefaultLeafJson (stb : StateTreeBuilder) (fn : JsonFunc) :
      Built stb → Built (stb.DefaultLeafJson (some fn))
  | Optional (stb : StateTreeBuilder) (key : String) (fn : ContextFunc) :
      Built stb → Built (stb.Optional key (some fn))
  | OptionalJson (stb : StateTreeBuilder) (key : String) (fn : JsonFunc) :
      Built stb → Built (stb.OptionalJson key (some fn))
  | Branch (stb : StateTreeBuilder) (key : String) (builder : StateTreeBuilder) :
      Built stb → Built builder → Built (stb.Branch key builder)
  | DefaultBranch (stb : StateTreeBuilder) (builder : StateTreeBuilder) :
      Built stb → Built builder → Built (stb.DefaultBranch builder)

/-! ## Path of a run, height of a tree, scalar requests -/

mutual
/-- The keys of the descents `current = next` that `Run` makes, in order. -/
def RunPath (rt : GoRuntime) (depth : Nat) : StateTree → Option Context → List SelectKey
  | .mk key sel opt cf jf _, ctx =>
    if cf.isSome || jf.isSome then []
    else
      match selectNext rt depth key (selectKeys sel) opt ctx with
      | .descend k => k :: RunPathSelect rt depth k sel ctx
      | .fail _ => []
      | .panic => []
/-- The descents made once the walk went on in the child `Select[k]`. -/
def RunPathSelect (rt : GoRuntime) (depth : Nat) (k : SelectKey) :
    List (SelectKey × StateTree) → Option Context → List SelectKey
  | [], _ => []
  | (k1, t) :: rest, ctx =>
    if k1 = k then RunPath rt (depth + 1) t ctx else RunPathSelect rt depth k rest ctx
end

mutual
/-- The tree in which the node reached from the root by the given keys has the given
`ErrorMessage`, and nothing else differs. -/
def setErrorAt (message : String) : StateTree → List SelectKey → StateTree
  | .mk key sel opt cf jf e, path =>
    match path with
    | [] => .mk key sel opt cf jf message
    | k :: rest => .mk key (setErrorAtSelect message sel k rest) opt cf jf e
/-- The children in which the child `Select[k]` is changed by `setErrorAt`. -/
def setErrorAtSelect (message : String) :
    List (SelectKey × StateTree) → SelectKey → List SelectKey → List (SelectKey × StateTree)
  | [], _, _ => []
  | (k1, t) :: others, k, rest =>
    if k1 = k then (k1, setErrorAt message t rest) :: others
    else (k1, t) :: setErrorAtSelect message others k rest
end

mutual
/-- Height of a tree: the number of edges of its longest branch. -/
def StateTree.height : StateTree → Nat
  | .mk _ sel _ _ _ _ => heightChildren sel
/-- One more than the greatest height of a child, zero without children. -/
def heightChildren : List (SelectKey × StateTree) → Nat
  | [] => 0
  | (_, t) :: rest => max (t.height + 1) (heightChildren rest)
end

/-- The scalar request values: null, boolean, number, string. -/
def Value.isScalar : Value → Bool
  | .arr _ => false
  | .obj _ => false
  | _ => true

/-- A request whose values are all scalars. -/
def Context.scalarData (ctx : Context) : Bool :=
  match ctx.JsonData with
  | none => true
  | some data => data.all (fun p => p.2.isScalar)

/-- A node that has a handler or a wildcard child. -/
def hasHandlerOrWildcard (n : StateTree) : Bool :=
  n.ContextFunc.isSome || n.JsonFunc.isSome || decide (SelectKey.str DefaultKey ∈ selectKeys n.Select)

/-- A key of dynamic type string. -/
def SelectKey.isStr : SelectKey → Bool
  | .str _ => true
  | _ => false

/-- A node whose children are all registered under string keys. -/
def hasStringKeys (n : StateTree) : Bool :=
  (selectKeys n.Select).all SelectKey.isStr

/-! ## Rendering -/

/-- What `print` writes for a node, as a function of its arguments `indent`, `last` and
`parentEdgeLabel`. -/
abbrev Printer := String → Bool → String → String

/-- Lines 199-206: the label of the edge to a child. -/
def edgeLabel (rt : GoRuntime) (opt : List (String × Bool)) (k : SelectKey) : String :=
  let label := k.format rt
  let label := if label = DefaultKey then "*" else label
  if isOptional opt label then label ++ "(option)" else label

/-- Lines 193-225: the body of the loop over the entries, for one entry: the child, and what
`print` writes for it. -/
def printEntry (rt : GoRuntime) (opt : List (String × Bool)) (edgesIndent : String)
    (isLastChild : Bool) (entry : SelectKey × StateTree × Printer) : String :=
  let connector := if !isLastChild then "├─" else "└─"
  let label := edgeLabel rt opt entry.1
  if entry.2.1.ContextFunc.isSome || entry.2.1.JsonFunc.isSome then
    let actionName :=
      if entry.2.1.ContextFunc.isSome then "ContextFunc"
      else if entry.2.1.JsonFunc.isSome then "JsonFunc" else "Anonymous"
    edgesIndent ++ connector ++ " " ++ label ++ " → " ++ actionName ++ "\n"
  else
    edgesIndent ++ connector ++ " " ++ label ++ "\n" ++
      entry.2.2 (if isLastChild then edgesIndent ++ "   " else edgesIndent ++ "│  ")
        isLastChild label

/-- Lines 192-226: the loop `for i, entry := range entries` from index `i` on, `len` being
`len(entries)`. -/
def printEntries (rt : GoRuntime) (opt : List (String × Bool)) (edgesIndent : String)
    (len : Nat) : Nat → List (SelectKey × StateTree × Printer) → String
  | _, [] => ""
  | i, entry :: rest =>
    printEntry rt opt edgesIndent (decide (i = len - 1)) entry ++
      printEntries rt opt edgesIndent len (i + 1) rest

mutual
/-- Source: `StateTree.print`; the result is the text written to the string builder. -/
def print (rt : GoRuntime) (depth : Nat) : StateTree → Printer
  | .mk key sel opt _ _ _ => fun indent _ parentEdgeLabel =>
    let header := if indent = "" then "StateTree\n" else ""
    let keyLine :=
      if key ≠ "" ∧ key ≠ parentEdgeLabel then indent ++ "└─ " ++ key ++ ":\n" else ""
    let edgesIndent := if key ≠ "" ∧ key ≠ parentEdgeLabel then indent ++ "   " else indent
    let entries := (printChildren rt depth sel).insertionSort
      (fun a b => rt.rangeRank .printEntries depth a.1 ≤ rt.rangeRank .printEntries depth b.1)
    header ++ keyLine ++ printEntries rt opt edgesIndent entries.length 0 entries
/-- The children of a node, each with what `print` writes for it. -/
def printChildren (rt : GoRuntime) (depth : Nat) :
    List (SelectKey × StateTree) → List (SelectKey × StateTree × Printer)
  | [] => []
  | (k, t) :: rest => (k, t, print rt (depth + 1) t) :: printChildren rt depth rest
end

/-- Source: `StateTree.String`. -/
def StateTree.String (st : StateTree) (rt : GoRuntime) : String := print rt 0 st "" true ""

/-! ## Sample runtimes, handlers, trees and requests -/

/-- A runtime whose `range` visits the keys in the order of first insertion. -/
def rtInsertion : GoRuntime :=
  { int64Overflow := fun _ => -(2 : Int) ^ 63, formatFloat := fun _ => "",
    rangeRank := fun _ _ _ => 0 }

/-- A runtime whose `range` visits the key `"b"` before every other key. -/
def rtBFirst : GoRuntime :=
  { int64Overflow := fun _ => -(2 : Int) ^ 63, formatFloat := fun _ => "",
    rangeRank := fun _ _ k => if k = .str "b" then 0 else 1 }

/-- A context-handler that returns the string `name`. -/
def constHandler (name : String) : ContextFunc := fun _ => .str name

/-- A request with the given fields. -/
def request (data : JsonMap) : Context := NewContext (some data) none

/-- Scenario 1: discriminator `type`, leaves `a`, `b` and a wildcard leaf. -/
def treeType : StateTree :=
  ((((StateTreeBuilder.Create.Key "type").Leaf "a" (some (constHandler "A"))).Leaf "b"
    (some (constHandler "B"))).DefaultLeaf (some (constHandler "D"))).Build

/-- Scenario 2: discriminator `mode`, a wildcard leaf and an optional leaf on `verbose`. -/
def treeMode : StateTree :=
  (((StateTreeBuilder.Create.Key "mode").DefaultLeaf (some (constHandler "D"))).Optional
    "verbose" (some (constHandler "V"))).Build

/-- Two optional leaves, `a` registered before `b`, and no wildcard. -/
def treeTwoOptional : StateTree :=
  (((StateTreeBuilder.Create.Key "mode").Optional "a" (some (constHandler "A"))).Optional "b"
    (some (constHandler "B"))).Build

/-- Scenario 3: discriminator `count` and a leaf under the `int64` key 2, which the builder
cannot register: the entry is put into `Select` directly. -/
def treeCount : StateTree :=
  .mk "count" [(.int64 2, .mk "" [] [] (some (constHandler "C")) none "")] [] none none ""


/-- Discriminator `type`, leaves `a` and `b`, an optional leaf `v`, and no wildcard. -/
def treeNoWildcard : StateTree :=
  ((((StateTreeBuilder.Create.Key "type").Leaf "a" (some (constHandler "A"))).Optional "v"
    (some (constHandler "V"))).Leaf "b" (some (constHandler "B"))).Build

/-! ## Lemmas on the model -/

theorem mem_rangeOrder (rt : GoRuntime) (site : RangeSite) (depth : Nat) (keys : List SelectKey)
    (k : SelectKey) : k ∈ rangeOrder rt site depth keys ↔ k ∈ keys := by
  unfold rangeOrder
  exact (List.perm_insertionSort _ keys).mem_iff

theorem rangeOrder_sorted (rt : GoRuntime) (site : RangeSite) (depth : Nat)
    (keys : List SelectKey) :
    (rangeOrder rt site depth keys).Pairwise
      (fun a b => rt.rangeRank site depth a ≤ rt.rangeRank site depth b) := by
  unfold rangeOrder
  haveI : IsTotal SelectKey (fun a b => rt.rangeRank site depth a ≤ rt.rangeRank site depth b) :=
    ⟨fun a b => Nat.le_total _ _⟩
  haveI : IsTrans SelectKey (fun a b => rt.rangeRank site depth a ≤ rt.rangeRank site depth b) :=
    ⟨fun a b c hab hbc => Nat.le_trans hab hbc⟩
  exact List.sorted_insertionSort _ keys

theorem scanOptional_eq_none (rt : GoRuntime) (depth : Nat) (keys : List SelectKey)
    (opt : List (String × Bool)) (c : Context) :
    scanOptional rt depth keys opt c = none ↔ ∀ k ∈ keys, optionalMatch rt opt c k = false := by
  unfold scanOptional
  rw [List.find?_eq_none]
  constructor
  · intro h k hk
    have := h k ((mem_rangeOrder rt _ depth keys k).2 hk)
    simpa using this
  · intro h k hk
    have := h k ((mem_rangeOrder rt _ depth keys k).1 hk)
    simp [this]

theorem scanOptional_eq_some (rt : GoRuntime) (depth : Nat) (keys : List SelectKey)
    (opt : List (String × Bool)) (c : Context) (k : SelectKey)
    (h : scanOptional rt depth keys opt c = some k) :
    k ∈ keys ∧ optionalMatch rt opt c k = true ∧
      ∀ k1 ∈ keys, optionalMatch rt opt c k1 = true →
        rt.rangeRank .optionalScan depth k ≤ rt.rangeRank .optionalScan depth k1 := by
  unfold scanOptional at h
  have hp := List.find?_some h
  have hmem := List.mem_of_find?_eq_some h
  refine ⟨(mem_rangeOrder rt _ depth keys k).1 hmem, hp, ?_⟩
  intro k1 hk1 hp1
  obtain ⟨_, l1, l2, hl, hnot⟩ := List.find?_eq_some.1 h
  have hk1m : k1 ∈ rangeOrder rt .optionalScan depth keys :=
    (mem_rangeOrder rt _ depth keys k1).2 hk1
  have hs := rangeOrder_sorted rt .optionalScan depth keys
  rw [hl] at hk1m hs
  rcases List.mem_append.1 hk1m with h1 | h1
  · have := hnot k1 h1
    simp [hp1] at this
  · rcases List.mem_cons.1 h1 with h2 | h2
    · rw [h2]
    · have hs2 := (List.pairwise_append.1 hs).2.1
      exact List.rel_of_pairwise_cons hs2 h2

theorem scanOptional_isSome (rt : GoRuntime) (depth : Nat) (keys : List SelectKey)
    (opt : List (String × Bool)) (c : Context)
    (h : ∃ k ∈ keys, optionalMatch rt opt c k = true) :
    ∃ k, scanOptional rt depth keys opt c = some k := by
  cases hs : scanOptional rt depth keys opt c with
  | some k => exact ⟨k, rfl⟩
  | none =>
    obtain ⟨k, hk, hp⟩ := h
    have := (scanOptional_eq_none rt depth keys opt c).1 hs k hk
    rw [this] at hp
    cases hp

theorem mem_selectKeys_of_selectGet (sel : List (SelectKey × StateTree)) (k : SelectKey)
    (t : StateTree) (h : selectGet sel k = some t) : k ∈ selectKeys sel := by
  induction sel with
  | nil => simp [selectGet] at h
  | cons p rest ih =>
    obtain ⟨k1, t1⟩ := p
    unfold selectGet at h ih
    by_cases hk : k = k1
    · subst hk
      simp [selectKeys]
    · have hb : (k == k1) = false := by simpa using hk
      rw [List.lookup_cons, hb] at h
      have := ih h
      simp only [selectKeys, List.map_cons, List.mem_cons] at this ⊢
      exact Or.inr this

theorem RunSelect_eq (rt : GoRuntime) (depth : Nat) (k : SelectKey)
    (sel : List (SelectKey × StateTree)) (ctx : Option Context) (t : StateTree)
    (h : selectGet sel k = some t) : RunSelect rt depth k sel ctx = Run rt (depth + 1) t ctx := by
  induction sel with
  | nil => simp [selectGet] at h
  | cons p rest ih =>
    obtain ⟨k1, t1⟩ := p
    unfold selectGet at h ih
    by_cases hk : k = k1
    · subst hk
      simp only [List.lookup_cons, beq_self_eq_true, Option.some.injEq] at h
      subst h
      simp [RunSelect]
    · have hb : (k == k1) = false := by simpa using hk
      rw [List.lookup_cons, hb] at h
      have hne : ¬ k1 = k := fun e => hk e.symm
      simp only [RunSelect, hne, if_false]
      exact ih h

theorem Run_handler (rt : GoRuntime) (depth : Nat) (t : StateTree) (ctx : Option Context)
    (h : t.ContextFunc.isSome = true ∨ t.JsonFunc.isSome = true) :
    Run rt depth t ctx = callHandler t.ContextFunc t.JsonFunc ctx := by
  obtain ⟨key, sel, opt, cf, jf, e⟩ := t
  simp only [StateTree.ContextFunc, StateTree.JsonFunc] at h ⊢
  rcases h with h | h <;> simp [Run, h]

theorem Run_internal (rt : GoRuntime) (depth : Nat) (key : String)
    (sel : List (SelectKey × StateTree)) (opt : List (String × Bool)) (e : String)
    (ctx : Option Context) (k : SelectKey) (t : StateTree)
    (hstep : selectNext rt depth key (selectKeys sel) opt ctx = .descend k)
    (hget : selectGet sel k = some t) :
    Run rt depth (.mk key sel opt none none e) ctx = Run rt (depth + 1) t ctx := by
  simp only [Run, Option.isSome_none, Bool.or_self, Bool.false_eq_true, if_false, hstep]
  exact RunSelect_eq rt depth k sel ctx t hget


theorem directLookup_next_mem (rt : GoRuntime) (key : String) (keys : List SelectKey)
    (ctx : Option Context) (k0 k : SelectKey)
    (h : directLookup rt key keys ctx = .ok k0 (some k)) : k ∈ keys := by
  unfold directLookup at h
  split at h
  · split at h
    · cases h
    · split at h
      · cases h
      · split at h
        · cases h
        · rename_i k1 _
          by_cases hm : k1 ∈ keys
          · rw [if_pos hm] at h
            cases h
            exact hm
          · rw [if_neg hm] at h
            cases h
  · cases h

theorem selectNext_descend_mem (rt : GoRuntime) (depth : Nat) (key : String)
    (keys : List SelectKey) (opt : List (String × Bool)) (ctx : Option Context) (k : SelectKey)
    (h : selectNext rt depth key keys opt ctx = .descend k) : k ∈ keys := by
  unfold selectNext at h
  cases hd : directLookup rt key keys ctx with
  | panic => rw [hd] at h; cases h
  | ok k0 next =>
    rw [hd] at h
    cases next with
    | some k1 =>
      simp only [Step.descend.injEq] at h
      subst h
      exact directLookup_next_mem rt key keys ctx k0 k1 hd
    | none =>
      cases ctx with
      | none => cases h
      | some c =>
        simp only at h
        cases hs : scanOptional rt depth keys opt c with
        | some k2 =>
          rw [hs] at h
          simp only [Step.descend.injEq] at h
          subst h
          exact (scanOptional_eq_some rt depth keys opt c k2 hs).1
        | none =>
          rw [hs] at h
          by_cases hw : SelectKey.str DefaultKey ∈ keys
          · simp only [hw, if_true, Step.descend.injEq] at h
            subst h
            exact hw
          · simp only [hw, if_false] at h
            cases h


/-! ## Precedence at a node: claims C1 to C5 -/

theorem directLookup_absent (rt : GoRuntime) (key : String) (keys : List SelectKey)
    (c : Context) (h : key = "" ∨ c.GetJsonValue key = none) :
    directLookup rt key keys (some c) = .ok (.str DefaultKey) none := by
  unfold directLookup
  by_cases hk : key = ""
  · simp [hk]
  · rcases h with h | h
    · exact absurd h hk
    · simp [hk, h]

theorem directLookup_present (rt : GoRuntime) (key : String) (keys : List SelectKey)
    (c : Context) (token : Value) (k : SelectKey) (hkey : key ≠ "")
    (htok : c.GetJsonValue key = some token)
    (hconv : (convertTokenToKey rt token).toKey? = some k) :
    directLookup rt key keys (some c) = .ok k (if k ∈ keys then some k else none) := by
  unfold directLookup
  simp [hkey, htok, hconv]

theorem selectNext_of_direct (rt : GoRuntime) (depth : Nat) (key : String)
    (keys : List SelectKey) (opt : List (String × Bool)) (ctx : Option Context)
    (k0 k : SelectKey) (h : directLookup rt key keys ctx = .ok k0 (some k)) :
    selectNext rt depth key keys opt ctx = .descend k := by
  simp [selectNext, h]

theorem selectNext_of_no_direct (rt : GoRuntime) (depth : Nat) (key : String)
    (keys : List SelectKey) (opt : List (String × Bool)) (c : Context) (k0 : SelectKey)
    (h : directLookup rt key keys (some c) = .ok k0 none) :
    selectNext rt depth key keys opt (some c) =
      match scanOptional rt depth keys opt c with
      | some k => .descend k
      | none =>
        if .str DefaultKey ∈ keys then .descend (.str DefaultKey)
        else .fail (errorMessage rt depth key keys opt k0) := by
  simp [selectNext, h]

theorem selectNext_optional (rt : GoRuntime) (depth : Nat) (key : String)
    (keys : List SelectKey) (opt : List (String × Bool)) (c : Context) (k0 : SelectKey)
    (h : directLookup rt key keys (some c) = .ok k0 none)
    (hex : ∃ k ∈ keys, optionalMatch rt opt c k = true) :
    ∃ k ∈ keys, optionalMatch rt opt c k = true ∧
      (∀ k1 ∈ keys, optionalMatch rt opt c k1 = true →
        rt.rangeRank .optionalScan depth k ≤ rt.rangeRank .optionalScan depth k1) ∧
      selectNext rt depth key keys opt (some c) = .descend k := by
  obtain ⟨k, hk⟩ := scanOptional_isSome rt depth keys opt c hex
  obtain ⟨hmem, hp, hmin⟩ := scanOptional_eq_some rt depth keys opt c k hk
  refine ⟨k, hmem, hp, hmin, ?_⟩
  rw [selectNext_of_no_direct rt depth key keys opt c k0 h, hk]

theorem selectNext_wildcard (rt : GoRuntime) (depth : Nat) (key : String)
    (keys : List SelectKey) (opt : List (String × Bool)) (c : Context) (k0 : SelectKey)
    (h : directLookup rt key keys (some c) = .ok k0 none)
    (hno : ∀ k ∈ keys, optionalMatch rt opt c k = false) (hw : .str DefaultKey ∈ keys) :
    selectNext rt depth key keys opt (some c) = .descend (.str DefaultKey) := by
  rw [selectNext_of_no_direct rt depth key keys opt c k0 h,
    (scanOptional_eq_none rt depth keys opt c).2 hno]
  simp [hw]

theorem selectNext_fail (rt : GoRuntime) (depth : Nat) (key : String)
    (keys : List SelectKey) (opt : List (String × Bool)) (c : Context) (k0 : SelectKey)
    (h : directLookup rt key keys (some c) = .ok k0 none)
    (hno : ∀ k ∈ keys, optionalMatch rt opt c k = false) (hw : .str DefaultKey ∉ keys) :
    selectNext rt depth key keys opt (some c) = .fail (errorMessage rt depth key keys opt k0) := by
  rw [selectNext_of_no_direct rt depth key keys opt c k0 h,
    (scanOptional_eq_none rt depth keys opt c).2 hno]
  simp [hw]

theorem convertTokenToKey_nil_or_empty (rt : GoRuntime) (token : Value)
    (h : token = .nil ∨ token = .str "") :
    (convertTokenToKey rt token).toKey? = some (.str DefaultKey) := by
  rcases h with h | h <;> subst h <;> simp [convertTokenToKey, Value.toKey?]

/-- C1, counterexample: the discriminator `mode` is null, the optional field `verbose` is
present and true, and yet the walk takes the wildcard child, not the optional one. -/
theorem C1_null_takes_wildcard_over_optional :
    (request [("mode", .nil), ("verbose", .bool true)]).GetJsonValue treeMode.Key = some .nil ∧
    .str "verbose" ∈ selectKeys treeMode.Select ∧
    optionalMatch rtInsertion treeMode.OptionalParams
      (request [("mode", .nil), ("verbose", .bool true)]) (.str "verbose") = true ∧
    optionalMatch rtInsertion treeMode.OptionalParams
      (request [("mode", .nil), ("verbose", .bool true)]) (.str DefaultKey) = false ∧
    selectNext rtInsertion 0 treeMode.Key (selectKeys treeMode.Select) treeMode.OptionalParams
      (some (request [("mode", .nil), ("verbose", .bool true)])) = .descend (.str DefaultKey) ∧
    Run rtInsertion 0 treeMode (some (request [("mode", .nil), ("verbose", .bool true)])) =
      .returned (.str "D") ∧
    Run rtInsertion 0 treeMode (some (request [("mode", .str ""), ("verbose", .bool true)])) =
      .returned (.str "D") ∧
    Run rtInsertion 0 treeMode (some (request [("verbose", .bool true)])) =
      .returned (.str "V") := by
  refine ⟨rfl, by decide, rfl, rfl, rfl, rfl, rfl, rfl⟩

/-- C1, amended: at a node without handler, when the discriminator field is null or the empty
string and a wildcard child exists, the walk takes the wildcard child by direct lookup of the
key `*`. In every other case of an absent, null or empty discriminator the walk takes a
satisfied optional child if there is one, else the wildcard child if there is one, else it
fails with the diagnostic for the key `*`. -/
theorem C1_precedence_absent_null_empty (rt : GoRuntime) (depth : Nat) (key : String)
    (keys : List SelectKey) (opt : List (String × Bool)) (c : Context)
    (h : key = "" ∨ c.GetJsonValue key = none ∨ c.GetJsonValue key = some .nil ∨
      c.GetJsonValue key = some (.str "")) :
    ((key ≠ "" ∧ c.GetJsonValue key ≠ none ∧ .str DefaultKey ∈ keys) →
      selectNext rt depth key keys opt (some c) = .descend (.str DefaultKey)) ∧
    (¬ (key ≠ "" ∧ c.GetJsonValue key ≠ none ∧ .str DefaultKey ∈ keys) →
      ((∃ k ∈ keys, optionalMatch rt opt c k = true) →
        ∃ k ∈ keys, optionalMatch rt opt c k = true ∧
          selectNext rt depth key keys opt (some c) = .descend k) ∧
      ((∀ k ∈ keys, optionalMatch rt opt c k = false) → .str DefaultKey ∈ keys →
        selectNext rt depth key keys opt (some c) = .descend (.str DefaultKey)) ∧
      ((∀ k ∈ keys, optionalMatch rt opt c k = false) → .str DefaultKey ∉ keys →
        selectNext rt depth key keys opt (some c) =
          .fail (errorMessage rt depth key keys opt (.str DefaultKey)))) := by
  have hdirect : ∀ token, key ≠ "" → c.GetJsonValue key = some token →
      (token = .nil ∨ token = .str "") →
      directLookup rt key keys (some c) =
        .ok (.str DefaultKey) (if .str DefaultKey ∈ keys then some (.str DefaultKey) else none) :=
    fun token hk ht hv =>
      directLookup_present rt key keys c token _ hk ht (convertTokenToKey_nil_or_empty rt token hv)
  constructor
  · rintro ⟨hk, hne, hw⟩
    have hd : directLookup rt key keys (some c) = .ok (.str DefaultKey) (some (.str DefaultKey)) := by
      rcases h with h | h | h | h
      · exact absurd h hk
      · exact absurd h hne
      · have := hdirect _ hk h (Or.inl rfl)
        simpa [hw] using this
      · have := hdirect _ hk h (Or.inr rfl)
        simpa [hw] using this
    exact selectNext_of_direct rt depth key keys opt _ _ _ hd
  · intro hnd
    have hd : directLookup rt key keys (some c) = .ok (.str DefaultKey) none := by
      by_cases hk : key = ""
      · exact directLookup_absent rt key keys c (Or.inl hk)
      · by_cases hne : c.GetJsonValue key = none
        · exact directLookup_absent rt key keys c (Or.inr hne)
        · have hw : .str DefaultKey ∉ keys := fun hw => hnd ⟨hk, hne, hw⟩
          rcases h with h | h | h | h
          · exact absurd h hk
          · exact absurd h hne
          · have := hdirect _ hk h (Or.inl rfl)
            simpa [hw] using this
          · have := hdirect _ hk h (Or.inr rfl)
            simpa [hw] using this
    refine ⟨?_, ?_, ?_⟩
    · intro hex
      obtain ⟨k, hm, hp, _, hs⟩ := selectNext_optional rt depth key keys opt c _ hd hex
      exact ⟨k, hm, hp, hs⟩
    · intro hno hw
      exact selectNext_wildcard rt depth key keys opt c _ hd hno hw
    · intro hno hw
      exact selectNext_fail rt depth key keys opt c _ hd hno hw

/-- C1, witness: scenario 2 with the discriminator null, where the wildcard child is taken by
direct lookup, and with the discriminator absent and no optional field, where the wildcard
child is taken after the optional scan. -/
theorem C1_precedence_witness :
    selectNext rtInsertion 0 treeMode.Key (selectKeys treeMode.Select) treeMode.OptionalParams
      (some (request [("mode", .nil), ("verbose", .bool true)])) = .descend (.str DefaultKey) ∧
    selectNext rtInsertion 0 treeMode.Key (selectKeys treeMode.Select) treeMode.OptionalParams
      (some (request [])) = .descend (.str DefaultKey) :=
  ⟨(C1_precedence_absent_null_empty rtInsertion 0 treeMode.Key (selectKeys treeMode.Select)
      treeMode.OptionalParams (request [("mode", .nil), ("verbose", .bool true)])
      (Or.inr (Or.inr (Or.inl rfl)))).1 ⟨by decide, fun h => Option.noConfusion h, by decide⟩,
    ((C1_precedence_absent_null_empty rtInsertion 0 treeMode.Key (selectKeys treeMode.Select)
      treeMode.OptionalParams (request []) (Or.inr (Or.inl rfl))).2
      (fun h => h.2.1 rfl)).2.1 (by decide) (by decide)⟩


/-- C2, counterexample: `a` is registered before `b`, both optional fields are present and the
discriminator has no direct match; a runtime whose iteration starts at `b` takes `b`, another
one takes `a`: the child taken is not always the first registered and is not a function of tree
and request alone. -/
theorem C2_second_registered_optional_taken :
    selectKeys treeTwoOptional.Select = [.str "a", .str "b"] ∧
    directLookup rtBFirst treeTwoOptional.Key (selectKeys treeTwoOptional.Select)
      (some (request [("a", .bool true), ("b", .bool true)])) = .ok (.str DefaultKey) none ∧
    optionalMatch rtBFirst treeTwoOptional.OptionalParams
      (request [("a", .bool true), ("b", .bool true)]) (.str "a") = true ∧
    optionalMatch rtBFirst treeTwoOptional.OptionalParams
      (request [("a", .bool true), ("b", .bool true)]) (.str "b") = true ∧
    selectNext rtBFirst 0 treeTwoOptional.Key (selectKeys treeTwoOptional.Select)
      treeTwoOptional.OptionalParams (some (request [("a", .bool true), ("b", .bool true)]))
      = .descend (.str "b") ∧
    selectNext rtInsertion 0 treeTwoOptional.Key (selectKeys treeTwoOptional.Select)
      treeTwoOptional.OptionalParams (some (request [("a", .bool true), ("b", .bool true)]))
      = .descend (.str "a") ∧
    Run rtBFirst 0 treeTwoOptional (some (request [("a", .bool true), ("b", .bool true)]))
      = .returned (.str "B") ∧
    Run rtInsertion 0 treeTwoOptional (some (request [("a", .bool true), ("b", .bool true)]))
      = .returned (.str "A") := by
  refine ⟨rfl, rfl, rfl, rfl, rfl, rfl, rfl, rfl⟩

/-- C2, amended: at a node where the discriminator has no direct match and at least one
optional child is satisfied, the walk takes a satisfied optional child that comes first in the
iteration order of the map for this `range` (no satisfied optional child has a smaller rank);
which one that is depends on the iteration order and not on the order of registration. When
exactly one optional child is satisfied it is the one taken, whatever the iteration order. -/
theorem C2_optional_first_in_iteration_order (rt : GoRuntime) (depth : Nat) (key : String)
    (keys : List SelectKey) (opt : List (String × Bool)) (c : Context) (k0 : SelectKey)
    (hdirect : directLookup rt key keys (some c) = .ok k0 none)
    (hsat : ∃ k ∈ keys, optionalMatch rt opt c k = true) :
    (∃ k ∈ keys, optionalMatch rt opt c k = true ∧
      (∀ k1 ∈ keys, optionalMatch rt opt c k1 = true →
        rt.rangeRank .optionalScan depth k ≤ rt.rangeRank .optionalScan depth k1) ∧
      selectNext rt depth key keys opt (some c) = .descend k) ∧
    (∀ k ∈ keys, optionalMatch rt opt c k = true →
      (∀ k1 ∈ keys, optionalMatch rt opt c k1 = true → k1 = k) →
      selectNext rt depth key keys opt (some c) = .descend k) := by
  have hmain := selectNext_optional rt depth key keys opt c k0 hdirect hsat
  refine ⟨hmain, ?_⟩
  intro k _ _ huniq
  obtain ⟨k2, hm2, hp2, _, hs2⟩ := hmain
  rw [hs2, huniq k2 hm2 hp2]

/-- C2, witness: with only the field `b` present, the optional child `b` is taken. -/
theorem C2_optional_witness :
    selectNext rtBFirst 0 treeTwoOptional.Key (selectKeys treeTwoOptional.Select)
      treeTwoOptional.OptionalParams (some (request [("b", .bool true)]))
      = .descend (.str "b") :=
  (C2_optional_first_in_iteration_order rtBFirst 0 treeTwoOptional.Key
    (selectKeys treeTwoOptional.Select) treeTwoOptional.OptionalParams
    (request [("b", .bool true)]) (.str DefaultKey) rfl
    ⟨.str "b", by decide, rfl⟩).2 (.str "b") (by decide) rfl (by decide)


theorem convertTokenToKey_str (rt : GoRuntime) (s : String) (hs : s ≠ "") :
    convertTokenToKey rt (.str s) = .str s := by
  simp [convertTokenToKey, hs]

theorem Run_direct_string (rt : GoRuntime) (depth : Nat) (key : String)
    (sel : List (SelectKey × StateTree)) (opt : List (String × Bool)) (e : String)
    (c : Context) (s : String) (leaf : StateTree) (hkey : key ≠ "")
    (hval : c.GetJsonValue key = some (.str s)) (hs : s ≠ "")
    (hreg : selectGet sel (.str s) = some leaf) :
    Run rt depth (.mk key sel opt none none e) (some c) = Run rt (depth + 1) leaf (some c) := by
  have hmem := mem_selectKeys_of_selectGet sel _ _ hreg
  have hd := directLookup_present rt key (selectKeys sel) c (.str s) (.str s) hkey hval
    (by rw [convertTokenToKey_str rt s hs]; rfl)
  rw [if_pos hmem] at hd
  exact Run_internal rt depth key sel opt e (some c) _ leaf
    (selectNext_of_direct rt depth key _ opt _ _ _ hd) hreg

theorem Run_wildcard (rt : GoRuntime) (depth : Nat) (key : String)
    (sel : List (SelectKey × StateTree)) (opt : List (String × Bool)) (e : String)
    (c : Context) (k0 : SelectKey) (leaf : StateTree)
    (hd : directLookup rt key (selectKeys sel) (some c) = .ok k0 none)
    (hno : ∀ k ∈ selectKeys sel, optionalMatch rt opt c k = false)
    (hreg : selectGet sel (.str DefaultKey) = some leaf) :
    Run rt depth (.mk key sel opt none none e) (some c) = Run rt (depth + 1) leaf (some c) :=
  Run_internal rt depth key sel opt e (some c) _ leaf
    (selectNext_wildcard rt depth key _ opt c k0 hd hno (mem_selectKeys_of_selectGet sel _ _ hreg))
    hreg

/-- C3: at a node without handler, with discriminator field `key` and leaves as children, on a
request `c`: a non-empty string value that is a registered key gives the result of the handler
registered under it, whatever the optional fields and the wildcard child; a non-empty string
value that is not registered, or an absent field, gives the result of the wildcard leaf when no
optional child is satisfied. -/
theorem C3_direct_match_then_wildcard (rt : GoRuntime) (depth : Nat) (key : String)
    (sel : List (SelectKey × StateTree)) (opt : List (String × Bool)) (e : String)
    (c : Context) (hkey : key ≠ "")
    (hleaves : ∀ p ∈ sel, p.2.ContextFunc.isSome = true ∨ p.2.JsonFunc.isSome = true) :
    (∀ s leaf, c.GetJsonValue key = some (.str s) → s ≠ "" →
      selectGet sel (.str s) = some leaf →
      Run rt depth (.mk key sel opt none none e) (some c)
        = callHandler leaf.ContextFunc leaf.JsonFunc (some c)) ∧
    (∀ s wild, c.GetJsonValue key = some (.str s) → s ≠ "" →
      .str s ∉ selectKeys sel →
      (∀ k ∈ selectKeys sel, optionalMatch rt opt c k = false) →
      selectGet sel (.str DefaultKey) = some wild →
      Run rt depth (.mk key sel opt none none e) (some c)
        = callHandler wild.ContextFunc wild.JsonFunc (some c)) ∧
    (∀ wild, c.GetJsonValue key = none →
      (∀ k ∈ selectKeys sel, optionalMatch rt opt c k = false) →
      selectGet sel (.str DefaultKey) = some wild →
      Run rt depth (.mk key sel opt none none e) (some c)
        = callHandler wild.ContextFunc wild.JsonFunc (some c)) := by
  have hleaf : ∀ k t, selectGet sel k = some t →
      Run rt (depth + 1) t (some c) = callHandler t.ContextFunc t.JsonFunc (some c) := by
    intro k t hget
    apply Run_handler
    have : (k, t) ∈ sel := by
      unfold selectGet at hget
      obtain ⟨l1, l2, hl, _⟩ := List.lookup_eq_some_iff.1 hget
      rw [hl]
      simp
    exact hleaves (k, t) this
  refine ⟨?_, ?_, ?_⟩
  · intro s leaf hval hs hreg
    rw [Run_direct_string rt depth key sel opt e c s leaf hkey hval hs hreg]
    exact hleaf _ _ hreg
  · intro s wild hval hs hnot hno hreg
    have hd := directLookup_present rt key (selectKeys sel) c (.str s) (.str s) hkey hval
      (by rw [convertTokenToKey_str rt s hs]; rfl)
    rw [if_neg hnot] at hd
    rw [Run_wildcard rt depth key sel opt e c _ wild hd hno hreg]
    exact hleaf _ _ hreg
  · intro wild hval hno hreg
    have hd := directLookup_absent rt key (selectKeys sel) c (Or.inr hval)
    rw [Run_wildcard rt depth key sel opt e c _ wild hd hno hreg]
    exact hleaf _ _ hreg

/-- C3, witness: scenario 1 with `type` equal to `a`. -/
theorem C3_witness :
    Run rtInsertion 0 treeType (some (request [("type", .str "a")]))
      = callHandler (some (constHandler "A")) none (some (request [("type", .str "a")])) :=
  (C3_direct_match_then_wildcard rtInsertion 0 "type" treeType.Select treeType.OptionalParams ""
    (request [("type", .str "a")]) (by decide)
    (by
      intro p hp
      simp only [treeType, StateTreeBuilder.Build, StateTreeBuilder.DefaultLeaf,
        StateTreeBuilder.Leaf, StateTreeBuilder.Key, StateTreeBuilder.Create, New,
        StateTree.Select, selectSet, DefaultKey] at hp
      simp at hp
      rcases hp with h | h | h <;> subst h <;> simp [StateTree.ContextFunc])).1
    "a" (.mk "" [] [] (some (constHandler "A")) none "") rfl (by decide) rfl


theorem optionalPresent_iff (c : Context) (k : String) :
    optionalPresent c k = true ↔
      ∃ v, c.GetJsonValue k = some v ∧ v ≠ .nil ∧ v ≠ .str "" := by
  unfold optionalPresent
  cases h : c.GetJsonValue k with
  | none => simp
  | some v => cases v <;> simp [isNil, isEmptyString]

theorem optionalMatch_str (rt : GoRuntime) (opt : List (String × Bool)) (c : Context)
    (k : String) :
    optionalMatch rt opt c (.str k) = (isOptional opt k && optionalPresent c k) := by
  simp [optionalMatch, SelectKey.format]

theorem optionalMatch_of_not_optional (rt : GoRuntime) (opt : List (String × Bool))
    (c : Context) (k : SelectKey) (h : isOptional opt (k.format rt) = false) :
    optionalMatch rt opt c k = false := by
  cases k <;> simp [optionalMatch, h]

/-- C4: at a node without handler that has a wildcard leaf `D` and one optional leaf `V`,
registered on field `k`, and on a request where the discriminator field is absent: the result
is the one of `V` when field `k` is present with a value that is neither nil nor the empty
string, and the one of `D` otherwise. -/
theorem C4_optional_iff_present (rt : GoRuntime) (depth : Nat) (key : String)
    (sel : List (SelectKey × StateTree)) (opt : List (String × Bool)) (e : String)
    (c : Context) (k : String) (D V : StateTree)
    (habs : key = "" ∨ c.GetJsonValue key = none)
    (hD : selectGet sel (.str DefaultKey) = some D)
    (hV : selectGet sel (.str k) = some V)
    (hopt : isOptional opt k = true)
    (honly : ∀ k1 ∈ selectKeys sel, k1 ≠ .str k → isOptional opt (k1.format rt) = false)
    (hDleaf : D.ContextFunc.isSome = true ∨ D.JsonFunc.isSome = true)
    (hVleaf : V.ContextFunc.isSome = true ∨ V.JsonFunc.isSome = true) :
    ((∃ v, c.GetJsonValue k = some v ∧ v ≠ .nil ∧ v ≠ .str "") →
      Run rt depth (.mk key sel opt none none e) (some c)
        = callHandler V.ContextFunc V.JsonFunc (some c)) ∧
    ((¬ ∃ v, c.GetJsonValue k = some v ∧ v ≠ .nil ∧ v ≠ .str "") →
      Run rt depth (.mk key sel opt none none e) (some c)
        = callHandler D.ContextFunc D.JsonFunc (some c)) := by
  have hd := directLookup_absent rt key (selectKeys sel) c habs
  have hkmem := mem_selectKeys_of_selectGet sel _ _ hV
  constructor
  · intro hpres
    have hsat : optionalMatch rt opt c (.str k) = true := by
      rw [optionalMatch_str, hopt, (optionalPresent_iff c k).2 hpres]
      rfl
    obtain ⟨k2, hm2, hp2, _, hs2⟩ :=
      selectNext_optional rt depth key (selectKeys sel) opt c _ hd ⟨_, hkmem, hsat⟩
    have hk2 : k2 = .str k := by
      by_contra hne
      rw [optionalMatch_of_not_optional rt opt c k2 (honly k2 hm2 hne)] at hp2
      cases hp2
    rw [hk2] at hs2
    rw [Run_internal rt depth key sel opt e (some c) _ V hs2 hV]
    exact Run_handler rt _ V _ hVleaf
  · intro hnot
    have hno : ∀ k1 ∈ selectKeys sel, optionalMatch rt opt c k1 = false := by
      intro k1 hk1
      by_cases hk : k1 = .str k
      · subst hk
        rw [optionalMatch_str]
        have : optionalPresent c k = false := by
          cases hp : optionalPresent c k with
          | false => rfl
          | true => exact absurd ((optionalPresent_iff c k).1 hp) hnot
        simp [this]
      · exact optionalMatch_of_not_optional rt opt c k1 (honly k1 hk1 hk)
    rw [Run_wildcard rt depth key sel opt e c _ D hd hno hD]
    exact Run_handler rt _ D _ hDleaf

/-- C4, witness: scenario 2 with `verbose` set to `false`, which still selects `V`. -/
theorem C4_witness :
    Run rtInsertion 0 treeMode (some (request [("verbose", .bool false)]))
      = callHandler (some (constHandler "V")) none (some (request [("verbose", .bool false)])) :=
  (C4_optional_iff_present rtInsertion 0 "mode" treeMode.Select treeMode.OptionalParams ""
    (request [("verbose", .bool false)]) "verbose"
    (.mk "" [] [] (some (constHandler "D")) none "")
    (.mk "" [] [] (some (constHandler "V")) none "")
    (Or.inr rfl) rfl rfl rfl (by decide) (Or.inl rfl) (Or.inl rfl)).1
    ⟨.bool false, rfl, by simp, by simp⟩


theorem selectGet_selectSet_self (sel : List (SelectKey × StateTree)) (k : SelectKey)
    (child : StateTree) : selectGet (selectSet sel k child) k = some child := by
  induction sel with
  | nil => simp [selectSet, selectGet, List.lookup]
  | cons p rest ih =>
    obtain ⟨k1, t1⟩ := p
    unfold selectGet at ih ⊢
    by_cases hk : k1 = k
    · simp [selectSet, hk, List.lookup]
    · have hb : (k == k1) = false := by simpa using fun e : k = k1 => hk e.symm
      simp only [selectSet, hk, if_false, List.lookup_cons, hb]
      exact ih

theorem isOptional_optionalSet_self (opt : List (String × Bool)) (k : String) :
    isOptional (optionalSet opt k) k = true := by
  induction opt with
  | nil => simp [optionalSet, isOptional, List.lookup]
  | cons p rest ih =>
    obtain ⟨k1, b⟩ := p
    unfold isOptional at ih ⊢
    by_cases hk : k1 = k
    · simp [optionalSet, hk, List.lookup]
    · have hb : (k == k1) = false := by simpa using fun e : k = k1 => hk e.symm
      simp only [optionalSet, hk, if_false, List.lookup_cons, hb]
      exact ih

/-- C5, counterexample: the discriminator `mode` has the string value `verbose`, the field
`verbose` itself is absent, and the walk still descends to the optional child `verbose`
instead of the wildcard child. -/
theorem C5_optional_matched_by_discriminator_value :
    treeMode.Key = "mode" ∧
    isOptional treeMode.OptionalParams "verbose" = true ∧
    (request [("mode", .str "verbose")]).GetJsonValue "verbose" = none ∧
    .str DefaultKey ∈ selectKeys treeMode.Select ∧
    selectNext rtInsertion 0 treeMode.Key (selectKeys treeMode.Select) treeMode.OptionalParams
      (some (request [("mode", .str "verbose")])) = .descend (.str "verbose") ∧
    Run rtInsertion 0 treeMode (some (request [("mode", .str "verbose")]))
      = .returned (.str "V") := by
  refine ⟨rfl, rfl, rfl, by decide, rfl, rfl⟩

/-- C5, amended: an optional child is registered as a normal child as well, so it is matched
by the presence of its own field and also by the discriminator value. Right after
`Optional(k, fn)` on a node without handler whose discriminator field is not empty, a request
whose discriminator has the non-empty string value `k`, while field `k` is absent, makes the
walk descend to the optional child `k` by direct lookup. -/
theorem C5_optional_child_reached_by_direct_lookup (rt : GoRuntime) (depth : Nat)
    (stb : StateTreeBuilder) (k : String) (fn : Option ContextFunc) (c : Context)
    (hcf : stb.root.ContextFunc = none) (hjf : stb.root.JsonFunc = none)
    (hkey : stb.root.Key ≠ "") (hk : k ≠ "")
    (hval : c.GetJsonValue stb.root.Key = some (.str k))
    (habsent : c.GetJsonValue k = none) :
    isOptional (stb.Optional k fn).Build.OptionalParams k = true ∧
    optionalMatch rt (stb.Optional k fn).Build.OptionalParams c (.str k) = false ∧
    selectNext rt depth (stb.Optional k fn).Build.Key
      (selectKeys (stb.Optional k fn).Build.Select) (stb.Optional k fn).Build.OptionalParams
      (some c) = .descend (.str k) ∧
    Run rt depth (stb.Optional k fn).Build (some c)
      = Run rt (depth + 1) (.mk "" [] [] fn none "") (some c) := by
  obtain ⟨root⟩ := stb
  obtain ⟨key, sel, opt, cf, jf, e⟩ := root
  simp only [StateTree.ContextFunc, StateTree.JsonFunc, StateTree.Key] at hcf hjf hkey hval
  subst hcf
  subst hjf
  have hreg : selectGet (selectSet sel (.str k) (.mk "" [] [] fn none "")) (.str k)
      = some (.mk "" [] [] fn none "") := selectGet_selectSet_self sel _ _
  have hmem := mem_selectKeys_of_selectGet _ _ _ hreg
  have hd := directLookup_present rt key
    (selectKeys (selectSet sel (.str k) (.mk "" [] [] fn none ""))) c (.str k) (.str k) hkey hval
    (by rw [convertTokenToKey_str rt k hk]; rfl)
  rw [if_pos hmem] at hd
  have hstep := selectNext_of_direct rt depth key _ (optionalSet opt k) _ _ _ hd
  simp only [StateTreeBuilder.Optional, StateTreeBuilder.Leaf, StateTreeBuilder.Build,
    StateTree.OptionalParams, StateTree.Key, StateTree.Select]
  refine ⟨isOptional_optionalSet_self opt k, ?_, hstep, ?_⟩
  · rw [optionalMatch_str]
    have : optionalPresent c k = false := by simp [optionalPresent, habsent]
    simp [this]
  · exact Run_internal rt depth key _ _ e (some c) _ _ hstep hreg

/-- C5, witness: the amended statement on a builder with the discriminator `mode`. -/
theorem C5_witness :
    Run rtInsertion 0 ((StateTreeBuilder.Create.Key "mode").Optional "verbose"
        (some (constHandler "V"))).Build (some (request [("mode", .str "verbose")]))
      = Run rtInsertion 1 (.mk "" [] [] (some (constHandler "V")) none "")
        (some (request [("mode", .str "verbose")])) :=
  (C5_optional_child_reached_by_direct_lookup rtInsertion 0 (StateTreeBuilder.Create.Key "mode")
    "verbose" (some (constHandler "V")) (request [("mode", .str "verbose")]) rfl rfl
    (by decide) (by decide) rfl rfl).2.2.2


/-! ## Canonical keys: claims C6 to C10 -/

theorem truncQ_intCast (n : Int) : truncQ (n : ℚ) = n := by
  simp [truncQ]

theorem int64OfFloat64_intCast (rt : GoRuntime) (n : Int)
    (hlo : -(2 : Int) ^ 63 ≤ n) (hhi : n < (2 : Int) ^ 63) :
    int64OfFloat64 rt (n : ℚ) = n := by
  unfold int64OfFloat64
  rw [truncQ_intCast, if_pos ⟨hlo, hhi⟩]

theorem float64OfInt64_den (i : Int) : (float64OfInt64 i).den = 1 := by
  unfold float64OfInt64
  split <;> simp

theorem convertTokenToKey_float64_whole (rt : GoRuntime) (n : Int)
    (hlo : -(2 : Int) ^ 63 ≤ n) (hhi : n < (2 : Int) ^ 63)
    (hrep : float64OfInt64 n = (n : ℚ)) :
    convertTokenToKey rt (.float64 (n : ℚ)) = .int64 n := by
  simp [convertTokenToKey, int64OfFloat64_intCast rt n hlo hhi, hrep]

theorem convertTokenToKey_float64_fraction (rt : GoRuntime) (v : ℚ) (hv : v.den ≠ 1) :
    convertTokenToKey rt (.float64 v) = .float64 v := by
  have hne : v ≠ float64OfInt64 (int64OfFloat64 rt v) := by
    intro h
    apply hv
    rw [h]
    exact float64OfInt64_den _
  simp [convertTokenToKey, hne]

/-- C6, counterexample: a leaf `C` registered under the integer key 2 of Go type `int`, or by
the builder as `Leaf("2", C)`, is not reached by a request whose `count` is the `float64` 2:
the canonical key is `int64(2)`, a different map key, and with no other child `Run` fails and
returns nil. -/
theorem C6_int_and_builder_keys_missed :
    (convertTokenToKey rtInsertion (.float64 2)).toKey? = some (.int64 2) ∧
    SelectKey.int64 2 ≠ SelectKey.int 2 ∧
    SelectKey.int64 2 ≠ SelectKey.str "2" ∧
    selectGet [(SelectKey.int 2, StateTree.mk "" [] [] (some (constHandler "C")) none "")]
      (.int 2) = some (.mk "" [] [] (some (constHandler "C")) none "") ∧
    Run rtInsertion 0
      (.mk "count" [(.int 2, .mk "" [] [] (some (constHandler "C")) none "")] [] none none "")
      (some (request [("count", .float64 2)]))
      = .failed "Invalid value \x272\x27 for key \x27count\x27. Supported values: [2]" ∧
    Run rtInsertion 0
      ((StateTreeBuilder.Create.Key "count").Leaf "2" (some (constHandler "C"))).Build
      (some (request [("count", .float64 2)]))
      = .failed "Invalid value \x272\x27 for key \x27count\x27. Supported values: [2]" := by
  refine ⟨rfl, by decide, by decide, rfl, rfl, rfl⟩

/-- C6, amended: at a node without handler whose discriminator field is `key`, with a leaf `C`
registered under the key `int64(n)`, the dynamic type that the canonical key of a whole number
has, a request whose `key` value is the `float64` equal to `n` returns the result of `C`: the
whole-valued float is converted to the key `int64(n)` before the lookup. Here `n` is an
`int64` and is exactly a `float64`, as the key and the value require. -/
theorem C6_whole_float_selects_integer_key (rt : GoRuntime) (depth : Nat) (key : String)
    (sel : List (SelectKey × StateTree)) (opt : List (String × Bool)) (e : String)
    (c : Context) (n : Int) (C : StateTree)
    (hkey : key ≠ "")
    (hlo : -(2 : Int) ^ 63 ≤ n) (hhi : n < (2 : Int) ^ 63)
    (hrep : float64OfInt64 n = (n : ℚ))
    (hval : c.GetJsonValue key = some (.float64 (n : ℚ)))
    (hreg : selectGet sel (.int64 n) = some C)
    (hleaf : C.ContextFunc.isSome = true ∨ C.JsonFunc.isSome = true) :
    convertTokenToKey rt (.float64 (n : ℚ)) = .int64 n ∧
    Run rt depth (.mk key sel opt none none e) (some c)
      = callHandler C.ContextFunc C.JsonFunc (some c) := by
  have hconv := convertTokenToKey_float64_whole rt n hlo hhi hrep
  refine ⟨hconv, ?_⟩
  have hmem := mem_selectKeys_of_selectGet sel _ _ hreg
  have hd := directLookup_present rt key (selectKeys sel) c _ (.int64 n) hkey hval
    (by rw [hconv]; rfl)
  rw [if_pos hmem] at hd
  rw [Run_internal rt depth key sel opt e (some c) _ C
    (selectNext_of_direct rt depth key _ opt _ _ _ hd) hreg]
  exact Run_handler rt _ C _ hleaf

/-- C6, witness: scenario 3, `count` equal to `2.0` and a leaf under the integer key 2. -/
theorem C6_witness :
    convertTokenToKey rtInsertion (.float64 ((2 : Int) : ℚ)) = .int64 2 ∧
    Run rtInsertion 0 treeCount (some (request [("count", .float64 ((2 : Int) : ℚ))]))
      = callHandler (some (constHandler "C")) none
        (some (request [("count", .float64 ((2 : Int) : ℚ))])) :=
  C6_whole_float_selects_integer_key rtInsertion 0 "count"
    [(.int64 2, .mk "" [] [] (some (constHandler "C")) none "")] [] ""
    (request [("count", .float64 ((2 : Int) : ℚ))]) 2
    (.mk "" [] [] (some (constHandler "C")) none "")
    (by decide) (by decide) (by decide) (by decide) rfl rfl (Or.inl rfl)

/-- C7, the code at the failing input: the number 3 decoded as `float64`, as `int` and as
`json.Number` gives three different keys, and the spellings `3` and `3.0` of a `json.Number`
give two more; a leaf under the integer key 2 is reached by the `float64` 2 and missed by the
`json.Number` 2 and by the `int` 2. -/
theorem C7_equal_numbers_distinct_keys :
    (convertTokenToKey rtInsertion (.float64 3)).toKey? = some (.int64 3) ∧
    (convertTokenToKey rtInsertion (.int 3)).toKey? = some (.int 3) ∧
    (convertTokenToKey rtInsertion (.number "3")).toKey? = some (.number "3") ∧
    (convertTokenToKey rtInsertion (.number "3.0")).toKey? = some (.number "3.0") ∧
    SelectKey.int64 3 ≠ SelectKey.int 3 ∧
    SelectKey.int64 3 ≠ SelectKey.number "3" ∧
    SelectKey.number "3" ≠ SelectKey.number "3.0" ∧
    Run rtInsertion 0 treeCount (some (request [("count", .float64 2)]))
      = .returned (.str "C") ∧
    Run rtInsertion 0 treeCount (some (request [("count", .number "2")]))
      = .failed "Invalid value \x272\x27 for key \x27count\x27. Supported values: [2]" ∧
    Run rtInsertion 0 treeCount (some (request [("count", .int 2)]))
      = .failed "Invalid value \x272\x27 for key \x27count\x27. Supported values: [2]" := by
  refine ⟨rfl, rfl, rfl, rfl, by decide, by decide, by decide, rfl, rfl, rfl⟩


/-- C8: `convertTokenToKey` maps nil and the empty string to the wildcard key `*`, every
boolean and every non-empty string to itself; and in the loop of `Run` an absent discriminator
field leaves `keyToLookup` at `*` with no direct match, so that, when no optional child is
satisfied, the child taken is the one registered under `*`, and the failure diagnostic names
the value `*` when there is none. -/
theorem C8_wildcard_key_for_nil_empty_absent (rt : GoRuntime) :
    convertTokenToKey rt .nil = .str "*" ∧
    convertTokenToKey rt (.str "") = .str "*" ∧
    (∀ b, convertTokenToKey rt (.bool b) = .bool b) ∧
    (∀ s, s ≠ "" → convertTokenToKey rt (.str s) = .str s) ∧
    (∀ depth key keys opt c, c.GetJsonValue key = none →
      directLookup rt key keys (some c) = .ok (.str "*") none ∧
      ((∀ k ∈ keys, optionalMatch rt opt c k = false) →
        selectNext rt depth key keys opt (some c) =
          if .str "*" ∈ keys then .descend (.str "*")
          else .fail (errorMessage rt depth key keys opt (.str "*")))) := by
  refine ⟨rfl, rfl, fun b => rfl, fun s hs => convertTokenToKey_str rt s hs, ?_⟩
  intro depth key keys opt c habs
  have hd := directLookup_absent rt key keys c (Or.inr habs)
  refine ⟨hd, ?_⟩
  intro hno
  by_cases hw : SelectKey.str "*" ∈ keys
  · rw [if_pos hw]
    exact selectNext_wildcard rt depth key keys opt c _ hd hno hw
  · rw [if_neg hw]
    exact selectNext_fail rt depth key keys opt c _ hd hno hw

/-- C8, witness: a non-empty string, and scenario 1 with the field `type` absent. -/
theorem C8_witness :
    convertTokenToKey rtInsertion (.str "a") = .str "a" ∧
    selectNext rtInsertion 0 "type" (selectKeys treeType.Select) treeType.OptionalParams
      (some (request [])) = .descend (.str "*") :=
  ⟨(C8_wildcard_key_for_nil_empty_absent rtInsertion).2.2.2.1 "a" (by decide),
    ((C8_wildcard_key_for_nil_empty_absent rtInsertion).2.2.2.2 0 "type"
      (selectKeys treeType.Select) treeType.OptionalParams (request []) rfl).2 (by decide)⟩

/-- C9, counterexample: an object whose `Value` member is the empty string is not mapped to
that string; the object itself is returned, which is not a hashable key. -/
theorem C9_empty_Value_member_returns_object :
    List.lookup "Value" [("Value", Value.str "")] = some (.str "") ∧
    convertTokenToKey rtInsertion (.obj [("Value", .str "")]) = .obj [("Value", .str "")] ∧
    convertTokenToKey rtInsertion (.obj [("Value", .str "")]) ≠ .str "" ∧
    (convertTokenToKey rtInsertion (.obj [("Value", .str "")])).toKey? = none := by
  refine ⟨rfl, rfl, ?_, rfl⟩
  intro h
  cases h

/-- C9, amended: for every object token with a string-valued `Value` member `s`,
`convertTokenToKey` returns `s` when `s` is not empty, and the object itself when `s` is the
empty string. -/
theorem C9_object_Value_member (rt : GoRuntime) (m : JsonMap) (s : String)
    (h : m.lookup "Value" = some (.str s)) :
    (s ≠ "" → convertTokenToKey rt (.obj m) = .str s) ∧
    (s = "" → convertTokenToKey rt (.obj m) = .obj m) := by
  constructor
  · intro hs
    simp [convertTokenToKey, h, hs]
  · intro hs
    simp [convertTokenToKey, h, hs]

/-- C9, witness: the object with `Value` equal to `create`. -/
theorem C9_witness :
    convertTokenToKey rtInsertion (.obj [("Value", .str "create")]) = .str "create" :=
  (C9_object_Value_member rtInsertion [("Value", .str "create")] "create" rfl).1 (by decide)

theorem Run_composite_panics (rt : GoRuntime) (depth : Nat) (key : String)
    (sel : List (SelectKey × StateTree)) (opt : List (String × Bool)) (e : String)
    (c : Context) (token : Value) (hkey : key ≠ "")
    (hval : c.GetJsonValue key = some token)
    (hcomp : (∃ xs, token = .arr xs) ∨
      (∃ m, token = .obj m ∧ ∀ s, m.lookup "Value" = some (.str s) → s = "")) :
    Run rt depth (.mk key sel opt none none e) (some c) = .panicked := by
  have hnone : (convertTokenToKey rt token).toKey? = none := by
    rcases hcomp with ⟨xs, rfl⟩ | ⟨m, rfl, hm⟩
    · rfl
    · cases hl : m.lookup "Value" with
      | none => simp [convertTokenToKey, hl, Value.toKey?]
      | some v =>
        cases v with
        | str s =>
          have := hm s hl
          subst this
          simp [convertTokenToKey, hl, Value.toKey?]
        | _ => simp [convertTokenToKey, hl, Value.toKey?]
  have hd : directLookup rt key (selectKeys sel) (some c) = .panic := by
    unfold directLookup
    simp [hkey, hval, hnone]
  simp [Run, selectNext, hd]

/-- C10, the code at the failing input: with a wildcard leaf present and no optional child, a
request whose discriminator is an empty object, an object without string `Value`, an object
with an empty `Value`, or an array, makes `Run` panic at the map index `Select[keyToLookup]`
instead of returning the result of the wildcard leaf. -/
theorem C10_composite_discriminator_panics :
    selectGet treeType.Select (.str DefaultKey)
      = some (.mk "" [] [] (some (constHandler "D")) none "") ∧
    Run rtInsertion 0 treeType (some (request [("type", .obj [])])) = .panicked ∧
    Run rtInsertion 0 treeType (some (request [("type", .obj [("Value", .int 1)])]))
      = .panicked ∧
    Run rtInsertion 0 treeType (some (request [("type", .obj [("Value", .str "")])]))
      = .panicked ∧
    Run rtInsertion 0 treeType (some (request [("type", .arr [])])) = .panicked ∧
    Run rtInsertion 0 treeType (some (request [("type", .obj [("Value", .str "a")])]))
      = .returned (.str "A") := by
  refine ⟨rfl, rfl, rfl, rfl, rfl, rfl⟩

/-! ## Failure, handlers and the tree after a run: claims C11 to C13 -/

theorem rangeOrder_perm (rt : GoRuntime) (site : RangeSite) (depth : Nat)
    (keys : List SelectKey) : (rangeOrder rt site depth keys).Perm keys := by
  unfold rangeOrder
  exact List.perm_insertionSort _ keys

theorem Run_fail (rt : GoRuntime) (depth : Nat) (key : String)
    (sel : List (SelectKey × StateTree)) (opt : List (String × Bool)) (e : String)
    (ctx : Option Context) (message : String)
    (h : selectNext rt depth key (selectKeys sel) opt ctx = .fail message) :
    Run rt depth (.mk key sel opt none none e) ctx = .failed message ∧
    RunTree rt depth (.mk key sel opt none none e) ctx = .mk key sel opt none none message := by
  simp [Run, RunTree, h]

/-- C11: at a node without handler where the discriminator has no direct match, no optional
child is satisfied and there is no wildcard child, `Run` returns nil and leaves on that node
the diagnostic `Invalid value '<looked-up key>' for key '<field>'. Supported values: [<list>]`.
The list is the renderings of the keys that are neither the wildcard nor optional, in some
order, followed by the renderings of the optional keys, in some order, each with the suffix
` (optional)`, joined by a comma and a space; it is `none` when there is no such key. -/
theorem C11_failure_diagnostic (rt : GoRuntime) (depth : Nat) (key : String)
    (sel : List (SelectKey × StateTree)) (opt : List (String × Bool)) (e : String)
    (c : Context) (k0 : SelectKey)
    (hdirect : directLookup rt key (selectKeys sel) (some c) = .ok k0 none)
    (hno : ∀ k ∈ selectKeys sel, optionalMatch rt opt c k = false)
    (hw : .str DefaultKey ∉ selectKeys sel) :
    Run rt depth (.mk key sel opt none none e) (some c)
      = .failed (errorMessage rt depth key (selectKeys sel) opt k0) ∧
    RunTree rt depth (.mk key sel opt none none e) (some c)
      = .mk key sel opt none none (errorMessage rt depth key (selectKeys sel) opt k0) ∧
    ∃ plain optional : List String,
      plain.Perm (((selectKeys sel).map (SelectKey.format rt)).filter
        (fun keyStr => decide (keyStr ≠ "*") && !isOptional opt keyStr)) ∧
      optional.Perm ((((selectKeys sel).map (SelectKey.format rt)).filter
        (fun keyStr => isOptional opt keyStr)).map (fun keyStr => keyStr ++ " (optional)")) ∧
      errorMessage rt depth key (selectKeys sel) opt k0 =
        "Invalid value \x27" ++ k0.format rt ++ "\x27 for key \x27" ++ key ++
          "\x27. Supported values: [" ++
          (if plain ++ optional = [] then "none" else String.intercalate ", " (plain ++ optional))
          ++ "]" := by
  have hstep := selectNext_fail rt depth key (selectKeys sel) opt c k0 hdirect hno hw
  obtain ⟨hrun, htree⟩ := Run_fail rt depth key sel opt e (some c) _ hstep
  refine ⟨hrun, htree, ?_⟩
  refine ⟨((rangeOrder rt .supportedKeys depth (selectKeys sel)).map (SelectKey.format rt)).filter
      (fun keyStr => decide (keyStr ≠ DefaultKey) && !isOptional opt keyStr),
    (((rangeOrder rt .optionalKeys depth (selectKeys sel)).map (SelectKey.format rt)).filter
      (fun keyStr => isOptional opt keyStr)).map (fun keyStr => keyStr ++ " (optional)"),
    ?_, ?_, ?_⟩
  · exact ((rangeOrder_perm rt _ depth _).map _).filter _
  · exact (((rangeOrder_perm rt _ depth _).map _).filter _).map _
  · unfold errorMessage supportedKeysList
    simp only []
    congr 2
    by_cases hnil : ((rangeOrder rt .supportedKeys depth (selectKeys sel)).map
        (SelectKey.format rt)).filter
          (fun keyStr => decide (keyStr ≠ DefaultKey) && !isOptional opt keyStr) ++
        (((rangeOrder rt .optionalKeys depth (selectKeys sel)).map (SelectKey.format rt)).filter
          (fun keyStr => isOptional opt keyStr)).map (fun keyStr => keyStr ++ " (optional)") = []
    · rw [if_pos hnil, hnil]
      rfl
    · rw [if_neg hnil, if_pos (List.length_pos.2 hnil)]

/-- C11, witness: the value `z` at a node with the leaves `a` and `b`, the optional leaf `v` and
no wildcard. -/
theorem C11_witness :
    Run rtInsertion 0 treeNoWildcard (some (request [("type", .str "z")]))
      = .failed "Invalid value \x27z\x27 for key \x27type\x27. Supported values: [a, b, v (optional)]" ∧
    RunTree rtInsertion 0 treeNoWildcard (some (request [("type", .str "z")]))
      = .mk "type" treeNoWildcard.Select treeNoWildcard.OptionalParams none none
        "Invalid value \x27z\x27 for key \x27type\x27. Supported values: [a, b, v (optional)]" :=
  ⟨(C11_failure_diagnostic rtInsertion 0 "type" treeNoWildcard.Select
      treeNoWildcard.OptionalParams "" (request [("type", .str "z")]) (.str "z") rfl
      (by decide) (by decide)).1,
    (C11_failure_diagnostic rtInsertion 0 "type" treeNoWildcard.Select
      treeNoWildcard.OptionalParams "" (request [("type", .str "z")]) (.str "z") rfl
      (by decide) (by decide)).2.1⟩

/-- C12: a node with a handler is treated as a leaf, whatever its discriminator, children and
optional set are. With a context-handler set (the data-handler set or not), `Run` returns the
result of the context-handler on the context it was given; with only a data-handler set, `Run`
on a context returns the result of the data-handler on `ctx.JsonData`. In both cases the
handler called is the one of that node, no node is passed through as an internal node and the
tree is left as it was. -/
theorem C12_handler_node_is_leaf (rt : GoRuntime) (depth : Nat) (key : String)
    (sel : List (SelectKey × StateTree)) (opt : List (String × Bool)) (e : String) :
    (∀ (f : ContextFunc) (jf : Option JsonFunc) (ctx : Option Context),
      Run rt depth (.mk key sel opt (some f) jf e) ctx = .returned (f ctx) ∧
      handlerCalls rt depth (.mk key sel opt (some f) jf e) ctx
        = [.mk key sel opt (some f) jf e] ∧
      passedThrough rt depth (.mk key sel opt (some f) jf e) ctx = [] ∧
      RunTree rt depth (.mk key sel opt (some f) jf e) ctx = .mk key sel opt (some f) jf e) ∧
    (∀ (g : JsonFunc) (c : Context),
      Run rt depth (.mk key sel opt none (some g) e) (some c) = .returned (g c.JsonData) ∧
      handlerCalls rt depth (.mk key sel opt none (some g) e) (some c)
        = [.mk key sel opt none (some g) e] ∧
      passedThrough rt depth (.mk key sel opt none (some g) e) (some c) = [] ∧
      RunTree rt depth (.mk key sel opt none (some g) e) (some c)
        = .mk key sel opt none (some g) e) := by
  constructor
  · intro f jf ctx
    simp [Run, handlerCalls, passedThrough, RunTree, callHandler]
  · intro g c
    simp [Run, handlerCalls, passedThrough, RunTree, callHandler]

mutual
theorem handlerCalls_spec (rt : GoRuntime) :
    ∀ (t : StateTree) (depth : Nat) (ctx : Option Context),
      (handlerCalls rt depth t ctx).length ≤ 1 ∧
      ((handlerCalls rt depth t ctx).length = 1 ↔ ∃ v, Run rt depth t ctx = .returned v) ∧
      (∀ n ∈ handlerCalls rt depth t ctx,
        n.ContextFunc.isSome = true ∨ n.JsonFunc.isSome = true) ∧
      (∀ n ∈ passedThrough rt depth t ctx, n.ContextFunc = none ∧ n.JsonFunc = none)
  | .mk key sel opt cf jf e, depth, ctx => by
    cases cf with
    | some f =>
      simp [handlerCalls, passedThrough, Run, callHandler, StateTree.ContextFunc]
    | none =>
      cases jf with
      | some g =>
        cases ctx with
        | none => simp [handlerCalls, passedThrough, Run, callHandler]
        | some c =>
          simp [handlerCalls, passedThrough, Run, callHandler, StateTree.JsonFunc]
      | none =>
        cases hs : selectNext rt depth key (selectKeys sel) opt ctx with
        | descend k =>
          have ih := handlerCallsSelect_spec rt sel depth k ctx
          simp only [handlerCalls, passedThrough, Run, Option.isSome_none, Bool.or_self,
            Bool.false_eq_true, if_false, hs]
          refine ⟨ih.1, ih.2.1, ih.2.2.1, ?_⟩
          intro n hn
          rcases List.mem_cons.1 hn with h | h
          · subst h
            exact ⟨rfl, rfl⟩
          · exact ih.2.2.2 n h
        | fail message =>
          simp [handlerCalls, passedThrough, Run, hs, StateTree.ContextFunc, StateTree.JsonFunc]
        | panic =>
          simp [handlerCalls, passedThrough, Run, hs, StateTree.ContextFunc, StateTree.JsonFunc]
theorem handlerCallsSelect_spec (rt : GoRuntime) :
    ∀ (sel : List (SelectKey × StateTree)) (depth : Nat) (k : SelectKey) (ctx : Option Context),
      (handlerCallsSelect rt depth k sel ctx).length ≤ 1 ∧
      ((handlerCallsSelect rt depth k sel ctx).length = 1 ↔
        ∃ v, RunSelect rt depth k sel ctx = .returned v) ∧
      (∀ n ∈ handlerCallsSelect rt depth k sel ctx,
        n.ContextFunc.isSome = true ∨ n.JsonFunc.isSome = true) ∧
      (∀ n ∈ passedThroughSelect rt depth k sel ctx, n.ContextFunc = none ∧ n.JsonFunc = none)
  | [], depth, k, ctx => by
    simp [handlerCallsSelect, passedThroughSelect, RunSelect]
  | (k1, t) :: rest, depth, k, ctx => by
    by_cases hk : k1 = k
    · have ih := handlerCalls_spec rt t (depth + 1) ctx
      simpa [handlerCallsSelect, passedThroughSelect, RunSelect, hk] using ih
    · have ih := handlerCallsSelect_spec rt rest depth k ctx
      simpa [handlerCallsSelect, passedThroughSelect, RunSelect, hk] using ih
end

/-- C13, counterexample: on a request whose discriminator matches no branch, `Run` fails and
no handler at all is executed. -/
theorem C13_failed_run_calls_no_handler :
    Run rtInsertion 0 treeNoWildcard (some (request [("type", .str "z")]))
      = .failed "Invalid value \x27z\x27 for key \x27type\x27. Supported values: [a, b, v (optional)]" ∧
    handlerCalls rtInsertion 0 treeNoWildcard (some (request [("type", .str "z")])) = [] ∧
    (handlerCalls rtInsertion 0 treeNoWildcard (some (request [("type", .str "z")]))).length
      ≠ 1 ∧
    handlerCalls rtInsertion 0 treeType none = [] := by
  refine ⟨rfl, rfl, by decide, rfl⟩

/-- C13, amended: for every tree and every request, at most one handler executes per `Run`
call: exactly one when `Run` returns the result of a handler, and none when `Run` fails for
want of a matching branch or panics. The handler executed belongs to a node with a handler,
and every node that `Run` passes through as an internal node has no handler. -/
theorem C13_at_most_one_handler (rt : GoRuntime) (depth : Nat) (t : StateTree)
    (ctx : Option Context) :
    (handlerCalls rt depth t ctx).length ≤ 1 ∧
    ((handlerCalls rt depth t ctx).length = 1 ↔ ∃ v, Run rt depth t ctx = .returned v) ∧
    ((∃ message, Run rt depth t ctx = .failed message) → handlerCalls rt depth t ctx = []) ∧
    (Run rt depth t ctx = .panicked → handlerCalls rt depth t ctx = []) ∧
    (∀ n ∈ handlerCalls rt depth t ctx,
      n.ContextFunc.isSome = true ∨ n.JsonFunc.isSome = true) ∧
    (∀ n ∈ passedThrough rt depth t ctx, n.ContextFunc = none ∧ n.JsonFunc = none) := by
  obtain ⟨hle, hiff, hcall, hpass⟩ := handlerCalls_spec rt t depth ctx
  have hzero : (¬ ∃ v, Run rt depth t ctx = .returned v) → handlerCalls rt depth t ctx = [] := by
    intro hnot
    have hne : (handlerCalls rt depth t ctx).length ≠ 1 := fun h => hnot (hiff.1 h)
    have : (handlerCalls rt depth t ctx).length = 0 := by omega
    exact List.length_eq_zero.1 this
  refine ⟨hle, hiff, ?_, ?_, hcall, hpass⟩
  · rintro ⟨message, hm⟩
    apply hzero
    rintro ⟨v, hv⟩
    rw [hm] at hv
    cases hv
  · intro hp
    apply hzero
    rintro ⟨v, hv⟩
    rw [hp] at hv
    cases hv

/-- C13, witness: the failed run of the counterexample calls no handler. -/
theorem C13_witness :
    handlerCalls rtInsertion 0 treeNoWildcard (some (request [("type", .str "z")])) = [] :=
  (C13_at_most_one_handler rtInsertion 0 treeNoWildcard
    (some (request [("type", .str "z")]))).2.2.1 ⟨_, rfl⟩

/-! ## Execution context: claims C14 to C18 -/

theorem Complete_completed (ctx : Context) (result : Value) :
    (ctx.Complete result).Completed = true := by
  unfold Context.Complete
  cases h : ctx.Completed with
  | true => simp [h]
  | false =>
    simp only [Bool.not_false, if_true]
    cases chanTrySend ctx.asyncReturnCh result <;> rfl

theorem Complete_of_completed (ctx : Context) (result : Value) (h : ctx.Completed = true) :
    ctx.Complete result = ctx := by
  simp [Context.Complete, h]

theorem apply_completed (ctx : Context) (op : ContextOp) (h : ctx.Completed = true) :
    (ctx.apply op).Completed = true := by
  cases op with
  | Complete result => exact Complete_completed ctx result
  | SetObjectRef key value =>
    simp only [Context.apply, Context.SetObjectRef]
    cases ctx.ObjectRefs <;> exact h
  | Receive =>
    simp only [Context.apply, Context.receive]
    cases ctx.asyncReturnCh <;> exact h

theorem applyAll_completed (ops : List ContextOp) :
    ∀ ctx : Context, ctx.Completed = true → (ctx.applyAll ops).Completed = true := by
  induction ops with
  | nil => intro ctx h; exact h
  | cons op ops ih =>
    intro ctx h
    exact ih _ (apply_completed ctx op h)

/-- C14: `Complete` is idempotent and the first call wins. After `Complete(r1)` a second call
`Complete(r2)` changes nothing; the context is then completed; when `Complete(r1)` is the first
completion of the context, the result kept is `r1`; and once `Completed` is true it stays true
along every sequence of operations on the context. -/
theorem C14_complete_idempotent_first_wins (ctx : Context) (r1 r2 : Value) :
    (ctx.Complete r1).Complete r2 = ctx.Complete r1 ∧
    ((ctx.Complete r1).Complete r2).Completed = true ∧
    (ctx.Completed = false → ((ctx.Complete r1).Complete r2).Result = r1) ∧
    (∀ ops : List ContextOp, ctx.Completed = true → (ctx.applyAll ops).Completed = true) ∧
    (∀ ops : List ContextOp, ((ctx.Complete r1).applyAll ops).Completed = true) := by
  have hidem := Complete_of_completed (ctx.Complete r1) r2 (Complete_completed ctx r1)
  refine ⟨hidem, ?_, ?_, ?_, ?_⟩
  · rw [hidem]
    exact Complete_completed ctx r1
  · intro h
    rw [hidem]
    unfold Context.Complete
    simp only [h, Bool.not_false, if_true]
    cases chanTrySend ctx.asyncReturnCh r1 <;> rfl
  · intro ops h
    exact applyAll_completed ops ctx h
  · intro ops
    exact applyAll_completed ops _ (Complete_completed ctx r1)

/-- C14, witness: two calls with different results on a new context keep the first one. -/
theorem C14_witness :
    (((NewContext none none).Complete (.str "first")).Complete (.str "second")).Result
      = .str "first" :=
  (C14_complete_idempotent_first_wins (NewContext none none) (.str "first")
    (.str "second")).2.2.1 rfl

theorem channel_invariant_apply (ctx : Context) (op : ContextOp)
    (h : (ctx.Completed = false → ctx.asyncReturnCh = []) ∧
      (ctx.Completed = true → ctx.asyncReturnCh = [] ∨ ctx.asyncReturnCh = [ctx.Result])) :
    ((ctx.apply op).Completed = false → (ctx.apply op).asyncReturnCh = []) ∧
    ((ctx.apply op).Completed = true →
      (ctx.apply op).asyncReturnCh = [] ∨ (ctx.apply op).asyncReturnCh = [(ctx.apply op).Result])
    := by
  obtain ⟨h0, h1⟩ := h
  cases op with
  | Complete result =>
    cases hc : ctx.Completed with
    | true =>
      simp only [Context.apply, Complete_of_completed ctx result hc]
      exact ⟨h0, h1⟩
    | false =>
      have hch := h0 hc
      simp [Context.apply, Context.Complete, hc, hch, chanTrySend]
  | SetObjectRef key value =>
    simp only [Context.apply, Context.SetObjectRef]
    cases ctx.ObjectRefs <;> exact ⟨h0, h1⟩
  | Receive =>
    simp only [Context.apply, Context.receive]
    cases hch : ctx.asyncReturnCh with
    | nil => simp [hch]
    | cons v rest =>
      have hc : ctx.Completed = true := by
        cases hcc : ctx.Completed with
        | true => rfl
        | false =>
          have := h0 hcc
          rw [hch] at this
          cases this
      rcases h1 hc with h2 | h2
      · rw [hch] at h2
        cases h2
      · rw [hch] at h2
        have hrest : rest = [] := by
          have := congrArg List.tail h2
          simpa using this
        simp [hrest]

theorem channel_invariant_applyAll (ops : List ContextOp) :
    ∀ ctx : Context,
      ((ctx.Completed = false → ctx.asyncReturnCh = []) ∧
        (ctx.Completed = true → ctx.asyncReturnCh = [] ∨ ctx.asyncReturnCh = [ctx.Result])) →
      (((ctx.applyAll ops).Completed = false → (ctx.applyAll ops).asyncReturnCh = []) ∧
        ((ctx.applyAll ops).Completed = true →
          (ctx.applyAll ops).asyncReturnCh = [] ∨
            (ctx.applyAll ops).asyncReturnCh = [(ctx.applyAll ops).Result])) := by
  induction ops with
  | nil => intro ctx h; exact h
  | cons op ops ih =>
    intro ctx h
    exact ih _ (channel_invariant_apply ctx op h)

theorem sentAlong_completed (ops : List ContextOp) :
    ∀ ctx : Context, ctx.Completed = true → ctx.sentAlong ops = [] := by
  induction ops with
  | nil => intro ctx _; rfl
  | cons op ops ih =>
    intro ctx h
    cases op with
    | Complete result =>
      simp only [Context.sentAlong, Context.CompleteSends, h, Bool.not_true, Bool.false_eq_true,
        if_false, List.nil_append]
      exact ih _ (apply_completed ctx _ h)
    | SetObjectRef key value =>
      simp only [Context.sentAlong]
      exact ih _ (apply_completed ctx _ h)
    | Receive =>
      simp only [Context.sentAlong]
      exact ih _ (apply_completed ctx _ h)

theorem sentAlong_not_completed (ops : List ContextOp) :
    ∀ ctx : Context, ctx.Completed = false → ctx.asyncReturnCh = [] →
      ctx.sentAlong ops = (firstComplete ops).toList := by
  induction ops with
  | nil => intro ctx _ _; rfl
  | cons op ops ih =>
    intro ctx hc hch
    cases op with
    | Complete result =>
      simp only [Context.sentAlong, firstComplete, Option.toList]
      have hdone : (ctx.apply (.Complete result)).Completed = true :=
        Complete_completed ctx result
      rw [sentAlong_completed ops _ hdone]
      simp [Context.CompleteSends, hc, hch, chanTrySend]
    | SetObjectRef key value =>
      simp only [Context.sentAlong, firstComplete]
      apply ih
      · simp only [Context.apply, Context.SetObjectRef]
        cases ctx.ObjectRefs <;> exact hc
      · simp only [Context.apply, Context.SetObjectRef]
        cases ctx.ObjectRefs <;> exact hch
    | Receive =>
      simp only [Context.sentAlong, firstComplete]
      have : ctx.apply .Receive = ctx := by
        simp [Context.apply, Context.receive, hch]
      rw [this]
      exact ih ctx hc hch

theorem Complete_channel (ctx : Context) (r : Value) :
    (ctx.Complete r).asyncReturnCh = ctx.asyncReturnCh ++ ctx.CompleteSends r := by
  unfold Context.Complete Context.CompleteSends
  cases hc : ctx.Completed with
  | true => simp
  | false =>
    simp only [Bool.not_false, if_true]
    unfold chanTrySend
    by_cases hlen : ctx.asyncReturnCh.length < 1
    · simp [hlen]
    · simp [hlen]

theorem completed_frame (ops : List ContextOp) :
    ∀ ctx : Context, ctx.Completed = true →
      (ctx.applyAll ops).Result = ctx.Result ∧
      ((∀ op ∈ ops, op ≠ .Receive) → (ctx.applyAll ops).asyncReturnCh = ctx.asyncReturnCh) ∧
      ctx.receivedAlong ops ++ (ctx.applyAll ops).asyncReturnCh = ctx.asyncReturnCh := by
  induction ops with
  | nil =>
    intro ctx _
    exact ⟨rfl, fun _ => rfl, rfl⟩
  | cons op ops ih =>
    intro ctx hc
    cases op with
    | Complete result =>
      have hsame : ctx.apply (.Complete result) = ctx := Complete_of_completed ctx result hc
      obtain ⟨h1, h2, h3⟩ := ih ctx hc
      simp only [Context.applyAll, Context.receivedAlong, hsame]
      exact ⟨h1, fun hno => h2 (fun op hop => hno op (List.mem_cons_of_mem _ hop)), h3⟩
    | SetObjectRef key value =>
      have hc1 : (ctx.apply (.SetObjectRef key value)).Completed = true :=
        apply_completed ctx _ hc
      have hres : (ctx.apply (.SetObjectRef key value)).Result = ctx.Result := by
        simp only [Context.apply, Context.SetObjectRef]
        cases ctx.ObjectRefs <;> rfl
      have hch : (ctx.apply (.SetObjectRef key value)).asyncReturnCh = ctx.asyncReturnCh := by
        simp only [Context.apply, Context.SetObjectRef]
        cases ctx.ObjectRefs <;> rfl
      obtain ⟨h1, h2, h3⟩ := ih _ hc1
      simp only [Context.applyAll, Context.receivedAlong]
      refine ⟨by rw [h1, hres], fun hno => ?_, by rw [h3, hch]⟩
      rw [h2 (fun op hop => hno op (List.mem_cons_of_mem _ hop)), hch]
    | Receive =>
      cases hr : ctx.asyncReturnCh with
      | nil =>
        have hsame : ctx.apply .Receive = ctx := by
          simp [Context.apply, Context.receive, hr]
        have hnone : ctx.receive = none := by simp [Context.receive, hr]
        obtain ⟨h1, _, h3⟩ := ih ctx hc
        simp only [Context.applyAll, Context.receivedAlong, hsame, hnone]
        refine ⟨h1, fun hno => absurd rfl (hno _ (List.mem_cons_self _ _)), ?_⟩
        rw [h3, hr]
      | cons v rest =>
        have hrec : ctx.receive = some (v, { ctx with asyncReturnCh := rest }) := by
          simp [Context.receive, hr]
        have happ : ctx.apply .Receive = { ctx with asyncReturnCh := rest } := by
          simp [Context.apply, hrec]
        obtain ⟨h1, _, h3⟩ := ih { ctx with asyncReturnCh := rest } hc
        simp only [Context.applyAll, Context.receivedAlong, happ, hrec]
        refine ⟨h1, fun hno => absurd rfl (hno _ (List.mem_cons_self _ _)), ?_⟩
        rw [List.cons_append, h3]

theorem first_complete_wins (ops : List ContextOp) :
    ∀ ctx : Context, ctx.Completed = false → ctx.asyncReturnCh = [] →
      ctx.receivedAlong ops ++ (ctx.applyAll ops).asyncReturnCh = (firstComplete ops).toList ∧
      (∀ r, firstComplete ops = some r →
        (ctx.applyAll ops).Completed = true ∧ (ctx.applyAll ops).Result = r) ∧
      (firstComplete ops = none → (ctx.applyAll ops).Completed = false) := by
  induction ops with
  | nil =>
    intro ctx hc hch
    refine ⟨by simp [Context.receivedAlong, Context.applyAll, firstComplete, hch], ?_, ?_⟩
    · intro r h
      cases h
    · intro _
      exact hc
  | cons op ops ih =>
    intro ctx hc hch
    cases op with
    | Complete result =>
      have hdone : (ctx.apply (.Complete result)).Completed = true :=
        Complete_completed ctx result
      have hres : (ctx.apply (.Complete result)).Result = result := by
        simp only [Context.apply, Context.Complete, hc, Bool.not_false, if_true]
        cases chanTrySend ctx.asyncReturnCh result <;> rfl
      have hchan : (ctx.apply (.Complete result)).asyncReturnCh = [result] := by
        simp [Context.apply, Context.Complete, hc, hch, chanTrySend]
      obtain ⟨h1, _, h3⟩ := completed_frame ops _ hdone
      simp only [Context.applyAll, Context.receivedAlong, firstComplete, Option.toList]
      refine ⟨by rw [h3, hchan], ?_, ?_⟩
      · intro r hr
        cases hr
        exact ⟨applyAll_completed ops _ hdone, by rw [h1, hres]⟩
      · intro h
        cases h
    | SetObjectRef key value =>
      have hc1 : (ctx.apply (.SetObjectRef key value)).Completed = false := by
        simp only [Context.apply, Context.SetObjectRef]
        cases ctx.ObjectRefs <;> exact hc
      have hch1 : (ctx.apply (.SetObjectRef key value)).asyncReturnCh = [] := by
        simp only [Context.apply, Context.SetObjectRef]
        cases ctx.ObjectRefs <;> exact hch
      simpa only [Context.applyAll, Context.receivedAlong, firstComplete] using ih _ hc1 hch1
    | Receive =>
      have hsame : ctx.apply .Receive = ctx := by
        simp [Context.apply, Context.receive, hch]
      have hnone : ctx.receive = none := by simp [Context.receive, hch]
      simpa only [Context.applyAll, Context.receivedAlong, firstComplete, hsame, hnone]
        using ih ctx hc hch

/-- C15: on a context made by `NewContext`, along every sequence of `Complete` calls (mixed
with receives on the completion channel and with `SetObjectRef` calls), exactly one value is
ever delivered into the completion channel, the result of the first `Complete`, when there is
a `Complete`, and none otherwise. Every `Complete` changes the channel by appending what it
sends and nothing else; the first `Complete(r)` puts `r` into the empty slot; the later
`Complete` calls leave the slot holding `r` and `Result` equal to `r`, so they neither add a
second value nor overwrite; the values that the receives took out, followed by what the slot
still holds, are exactly the first result; and at every state reached the slot is empty when
`Completed` is false and is empty or holds `Result` when `Completed` is true. -/
theorem C15_single_delivery (jsonData objectRefs : Option JsonMap) (ops : List ContextOp) :
    (∀ (ctx : Context) (r : Value),
      (ctx.Complete r).asyncReturnCh = ctx.asyncReturnCh ++ ctx.CompleteSends r) ∧
    (∀ r, ((NewContext jsonData objectRefs).Complete r).asyncReturnCh = [r] ∧
      (NewContext jsonData objectRefs).CompleteSends r = [r]) ∧
    (NewContext jsonData objectRefs).sentAlong ops = (firstComplete ops).toList ∧
    (∀ r, (∀ op ∈ ops, op ≠ .Receive) →
      (((NewContext jsonData objectRefs).Complete r).applyAll ops).asyncReturnCh = [r] ∧
      (((NewContext jsonData objectRefs).Complete r).applyAll ops).Result = r ∧
      (((NewContext jsonData objectRefs).Complete r).applyAll ops).Completed = true) ∧
    (NewContext jsonData objectRefs).receivedAlong ops ++
      ((NewContext jsonData objectRefs).applyAll ops).asyncReturnCh
        = (firstComplete ops).toList ∧
    (∀ r, firstComplete ops = some r →
      ((NewContext jsonData objectRefs).applyAll ops).Completed = true ∧
      ((NewContext jsonData objectRefs).applyAll ops).Result = r) ∧
    (firstComplete ops = none →
      ((NewContext jsonData objectRefs).applyAll ops).Completed = false) ∧
    (((NewContext jsonData objectRefs).applyAll ops).Completed = false →
      ((NewContext jsonData objectRefs).applyAll ops).asyncReturnCh = []) ∧
    (((NewContext jsonData objectRefs).applyAll ops).Completed = true →
      ((NewContext jsonData objectRefs).applyAll ops).asyncReturnCh = [] ∨
      ((NewContext jsonData objectRefs).applyAll ops).asyncReturnCh
        = [((NewContext jsonData objectRefs).applyAll ops).Result]) := by
  have hinv := channel_invariant_applyAll ops (NewContext jsonData objectRefs)
    ⟨fun _ => rfl, fun h => by simp [NewContext] at h⟩
  obtain ⟨hcons, hfirst, hnone⟩ :=
    first_complete_wins ops (NewContext jsonData objectRefs) rfl rfl
  refine ⟨Complete_channel, fun r => ⟨rfl, rfl⟩, sentAlong_not_completed ops _ rfl rfl, ?_,
    hcons, hfirst, hnone, hinv.1, hinv.2⟩
  intro r hno
  have hdone : ((NewContext jsonData objectRefs).Complete r).Completed = true :=
    Complete_completed _ r
  obtain ⟨h1, h2, _⟩ := completed_frame ops _ hdone
  exact ⟨by rw [h2 hno]; rfl, by rw [h1]; rfl, applyAll_completed ops _ hdone⟩

/-- C15, witness: after `Complete("a")` on a new context, two more `Complete` calls leave the
slot holding `a` alone and `Result` equal to `a`. -/
theorem C15_witness :
    (((NewContext none none).Complete (.str "a")).applyAll
      [.Complete (.str "b"), .Complete (.str "c")]).asyncReturnCh = [.str "a"] ∧
    (((NewContext none none).Complete (.str "a")).applyAll
      [.Complete (.str "b"), .Complete (.str "c")]).Result = .str "a" ∧
    (((NewContext none none).Complete (.str "a")).applyAll
      [.Complete (.str "b"), .Complete (.str "c")]).Completed = true :=
  (C15_single_delivery none none [.Complete (.str "b"), .Complete (.str "c")]).2.2.2.1
    (.str "a") (by
      intro op hop
      simp only [List.mem_cons, List.mem_singleton, List.not_mem_nil, or_false] at hop
      rcases hop with h | h <;> subst h <;> exact fun e => ContextOp.noConfusion e)

theorem async_schedules (jsonData objectRefs : Option JsonMap) (x : Value)
    (moves : List AsyncMove) (s : AsyncState)
    (h : (({ ctx := NewContext jsonData objectRefs, goroutines := [], received := [] } :
      AsyncState).AsyncReturn x).1.exec moves = some s) :
    (moves = [] ∧
      s = { ctx := NewContext jsonData objectRefs, goroutines := [x], received := [] }) ∨
    (moves = [.run 0] ∧
      s = { ctx := (NewContext jsonData objectRefs).Complete x, goroutines := [],
            received := [] }) ∨
    (moves = [.run 0, .receive] ∧
      s = { ctx := { JsonData := jsonData, ObjectRefs := objectRefs, Completed := true,
                     Result := x, asyncReturnCh := [] },
            goroutines := [], received := [x] }) := by
  cases moves with
  | nil =>
    left
    have h2 : some ({ ctx := NewContext jsonData objectRefs, goroutines := [x],
                      received := [] } : AsyncState) = some s := h
    exact ⟨rfl, (Option.some.inj h2).symm⟩
  | cons m ms =>
    right
    cases m with
    | receive =>
      simp [AsyncState.exec, AsyncState.step, AsyncState.AsyncReturn, Context.receive,
        NewContext] at h
    | run i =>
      cases i with
      | succ n =>
        simp [AsyncState.exec, AsyncState.step, AsyncState.AsyncReturn] at h
      | zero =>
        cases ms with
        | nil =>
          left
          have h2 : some ({ ctx := (NewContext jsonData objectRefs).Complete x,
                            goroutines := [], received := [] } : AsyncState) = some s := h
          exact ⟨rfl, (Option.some.inj h2).symm⟩
        | cons m2 ms2 =>
          right
          cases m2 with
          | run j =>
            simp [AsyncState.exec, AsyncState.step, AsyncState.AsyncReturn] at h
          | receive =>
            cases ms2 with
            | nil =>
              have h2 : some ({ ctx := { JsonData := jsonData, ObjectRefs := objectRefs,
                                         Completed := true, Result := x, asyncReturnCh := [] },
                                goroutines := [], received := [x] } : AsyncState) = some s := h
              exact ⟨rfl, (Option.some.inj h2).symm⟩
            | cons m3 ms3 =>
              cases m3 with
              | run j =>
                simp [AsyncState.exec, AsyncState.step, AsyncState.AsyncReturn,
                  Context.receive, Context.Complete, NewContext, chanTrySend] at h
              | receive =>
                simp [AsyncState.exec, AsyncState.step, AsyncState.AsyncReturn,
                  Context.receive, Context.Complete, NewContext, chanTrySend] at h

/-- C16: on a new context, `AsyncReturn(x)` returns nil and leaves the context as it was, with
one goroutine pending. Whatever the scheduler does afterwards, the caller waiting on
`GetAsyncResult()` has received nothing or exactly `x`, never a second value; a state where
nothing has been received yet always has a move enabled, a state where no move is enabled has
delivered `x`, and the schedule that runs the goroutine and then the receive delivers `x` and
leaves the channel empty. -/
theorem C16_async_return_delivers_once (jsonData objectRefs : Option JsonMap) (x : Value) :
    (({ ctx := NewContext jsonData objectRefs, goroutines := [], received := [] } :
      AsyncState).AsyncReturn x).2 = .nil ∧
    (({ ctx := NewContext jsonData objectRefs, goroutines := [], received := [] } :
      AsyncState).AsyncReturn x).1
      = { ctx := NewContext jsonData objectRefs, goroutines := [x], received := [] } ∧
    (∀ moves s,
      (({ ctx := NewContext jsonData objectRefs, goroutines := [], received := [] } :
        AsyncState).AsyncReturn x).1.exec moves = some s →
      (s.received = [] ∨ s.received = [x]) ∧
      moves.length ≤ 2 ∧
      (s.received = [] → ∃ m s1, s.step m = some s1) ∧
      ((∀ m, s.step m = none) → s.received = [x] ∧ s.ctx.asyncReturnCh = [])) ∧
    (({ ctx := NewContext jsonData objectRefs, goroutines := [], received := [] } :
      AsyncState).AsyncReturn x).1.exec [.run 0, .receive]
      = some { ctx := { JsonData := jsonData, ObjectRefs := objectRefs, Completed := true,
                        Result := x, asyncReturnCh := [] },
               goroutines := [], received := [x] } := by
  refine ⟨rfl, rfl, ?_, rfl⟩
  intro moves s h
  rcases async_schedules jsonData objectRefs x moves s h with
    ⟨hm, hs⟩ | ⟨hm, hs⟩ | ⟨hm, hs⟩
  · subst hm
    subst hs
    refine ⟨Or.inl rfl, by simp, fun _ => ⟨.run 0, _, rfl⟩, ?_⟩
    intro hstuck
    have := hstuck (.run 0)
    simp [AsyncState.step] at this
  · subst hm
    subst hs
    refine ⟨Or.inl rfl, by simp, fun _ => ⟨.receive, _, rfl⟩, ?_⟩
    intro hstuck
    have := hstuck .receive
    simp [AsyncState.step, Context.receive, Context.Complete, NewContext, chanTrySend] at this
  · subst hm
    subst hs
    refine ⟨Or.inr rfl, by simp, ?_, fun _ => ⟨rfl, rfl⟩⟩
    intro hrec
    cases hrec

/-- C16, witness: after `AsyncReturn("done")` and the run of the goroutine, the waiting caller
has not received yet and the receive is enabled. -/
theorem C16_witness :
    ∃ m s1, (({ ctx := (NewContext none none).Complete (.str "done"), goroutines := [],
                received := [] } : AsyncState).step m) = some s1 :=
  ((C16_async_return_delivers_once none none (.str "done")).2.2.1 [.run 0]
    { ctx := (NewContext none none).Complete (.str "done"), goroutines := [], received := [] }
    rfl).2.2.1 rfl

/-- C17: the typed accessors are total functions that return the zero value of their type on
absence or type mismatch. `GetString`, `GetBool`, `GetArray` and `GetObject` return the stored
value when it has their type and the empty string, false, the nil slice and the nil map
otherwise; `GetInt` and `GetFloat` return 0 when the key is absent or holds nil, a boolean, a
string, an array or an object; and on a context with nil `JsonData` every accessor returns its
zero value. -/
theorem C17_typed_accessors_zero_value (rt : GoRuntime) (parseFloat64 : String → Option ℚ)
    (ctx : Context) (key : String) :
    (∀ s, ctx.GetJsonValue key = some (.str s) → ctx.GetString key = s) ∧
    ((∀ s, ctx.GetJsonValue key ≠ some (.str s)) → ctx.GetString key = "") ∧
    (∀ b, ctx.GetJsonValue key = some (.bool b) → ctx.GetBool key = b) ∧
    ((∀ b, ctx.GetJsonValue key ≠ some (.bool b)) → ctx.GetBool key = false) ∧
    (∀ xs, ctx.GetJsonValue key = some (.arr xs) → ctx.GetArray key = some xs) ∧
    ((∀ xs, ctx.GetJsonValue key ≠ some (.arr xs)) → ctx.GetArray key = none) ∧
    (∀ m, ctx.GetJsonValue key = some (.obj m) → ctx.GetObject key = some m) ∧
    ((∀ m, ctx.GetJsonValue key ≠ some (.obj m)) → ctx.GetObject key = none) ∧
    ((ctx.GetJsonValue key = none ∨ ctx.GetJsonValue key = some .nil ∨
        (∃ b, ctx.GetJsonValue key = some (.bool b)) ∨
        (∃ s, ctx.GetJsonValue key = some (.str s)) ∨
        (∃ xs, ctx.GetJsonValue key = some (.arr xs)) ∨
        (∃ m, ctx.GetJsonValue key = some (.obj m))) →
      ctx.GetInt rt key = 0 ∧ ctx.GetFloat parseFloat64 key = 0) ∧
    (ctx.JsonData = none →
      ctx.GetString key = "" ∧ ctx.GetInt rt key = 0 ∧ ctx.GetFloat parseFloat64 key = 0 ∧
      ctx.GetBool key = false ∧ ctx.GetArray key = none ∧ ctx.GetObject key = none) := by
  refine ⟨?_, ?_, ?_, ?_, ?_, ?_, ?_, ?_, ?_, ?_⟩
  · intro s h
    simp [Context.GetString, h]
  · intro h
    unfold Context.GetString
    cases hv : ctx.GetJsonValue key with
    | none => rfl
    | some v =>
      cases v with
      | str s => exact absurd hv (h s)
      | _ => rfl
  · intro b h
    simp [Context.GetBool, h]
  · intro h
    unfold Context.GetBool
    cases hv : ctx.GetJsonValue key with
    | none => rfl
    | some v =>
      cases v with
      | bool b => exact absurd hv (h b)
      | _ => rfl
  · intro xs h
    simp [Context.GetArray, h]
  · intro h
    unfold Context.GetArray
    cases hv : ctx.GetJsonValue key with
    | none => rfl
    | some v =>
      cases v with
      | arr xs => exact absurd hv (h xs)
      | _ => rfl
  · intro m h
    simp [Context.GetObject, h]
  · intro h
    unfold Context.GetObject
    cases hv : ctx.GetJsonValue key with
    | none => rfl
    | some v =>
      cases v with
      | obj m => exact absurd hv (h m)
      | _ => rfl
  · intro h
    rcases h with h | h | ⟨b, h⟩ | ⟨s, h⟩ | ⟨xs, h⟩ | ⟨m, h⟩ <;>
      simp [Context.GetInt, Context.GetFloat, h]
  · intro h
    have hv : ctx.GetJsonValue key = none := by simp [Context.GetJsonValue, h]
    simp [Context.GetString, Context.GetInt, Context.GetFloat, Context.GetBool,
      Context.GetArray, Context.GetObject, hv]

/-- C17, witness: a string read with every accessor, and a context with nil `JsonData`. -/
theorem C17_witness :
    (request [("name", .str "cube")]).GetString "name" = "cube" ∧
    ((request [("name", .str "cube")]).GetInt rtInsertion "name" = 0 ∧
      (request [("name", .str "cube")]).GetFloat (fun _ => none) "name" = 0) ∧
    (NewContext none none).GetBool "name" = false :=
  ⟨(C17_typed_accessors_zero_value rtInsertion (fun _ => none) (request [("name", .str "cube")])
      "name").1 "cube" rfl,
    (C17_typed_accessors_zero_value rtInsertion (fun _ => none) (request [("name", .str "cube")])
      "name").2.2.2.2.2.2.2.2.1 (Or.inr (Or.inr (Or.inr (Or.inl ⟨"cube", rfl⟩)))),
    ((C17_typed_accessors_zero_value rtInsertion (fun _ => none) (NewContext none none)
      "name").2.2.2.2.2.2.2.2.2 rfl).2.2.2.1⟩

theorem lookup_jsonSet_self (m : JsonMap) (key : String) (value : Value) :
    (jsonSet m key value).lookup key = some value := by
  induction m with
  | nil => simp [jsonSet, List.lookup]
  | cons p rest ih =>
    obtain ⟨k1, v1⟩ := p
    by_cases hk : k1 = key
    · simp [jsonSet, hk, List.lookup]
    · have hb : (key == k1) = false := by simpa using fun e : key = k1 => hk e.symm
      simp only [jsonSet, hk, if_false, List.lookup_cons, hb]
      exact ih

theorem lookup_jsonSet_other (m : JsonMap) (key key1 : String) (value : Value)
    (hne : key1 ≠ key) : (jsonSet m key value).lookup key1 = m.lookup key1 := by
  induction m with
  | nil =>
    have hb : (key1 == key) = false := by simpa using hne
    simp [jsonSet, List.lookup, hb]
  | cons p rest ih =>
    obtain ⟨k1, v1⟩ := p
    by_cases hk : k1 = key
    · subst hk
      have hb : (key1 == k1) = false := by simpa using hne
      simp [jsonSet, List.lookup, hb]
    · simp only [jsonSet, hk, if_false, List.lookup_cons]
      cases key1 == k1
      · exact ih
      · rfl

theorem GetObjectRef_applyAll_none (key : String) (ops : List ContextOp) :
    ∀ ctx : Context, ctx.GetObjectRef key = none →
      (∀ op ∈ ops, ∀ value, op ≠ .SetObjectRef key value) →
      (ctx.applyAll ops).GetObjectRef key = none := by
  induction ops with
  | nil => intro ctx h _; exact h
  | cons op ops ih =>
    intro ctx h hno
    apply ih
    · cases op with
      | Complete result =>
        simp only [Context.apply, Context.Complete]
        split
        · split <;> exact h
        · exact h
      | SetObjectRef k value =>
        have hk : key ≠ k := by
          intro e
          subst e
          exact hno _ (List.mem_cons_self _ _) value rfl
        unfold Context.GetObjectRef at h ⊢
        simp only [Context.apply, Context.SetObjectRef]
        cases hr : ctx.ObjectRefs with
        | none =>
          simp only
          rw [lookup_jsonSet_other [] k key value hk]
          rfl
        | some refs =>
          rw [hr] at h
          simp only
          rw [lookup_jsonSet_other refs k key value hk]
          exact h
      | Receive =>
        simp only [Context.apply, Context.receive]
        cases ctx.asyncReturnCh <;> exact h
    · intro op1 hop1
      exact hno op1 (List.mem_cons_of_mem _ hop1)

/-- C18: the reference side-table is a round trip. After `SetObjectRef(k, v)`, on any context,
also one whose `ObjectRefs` is nil, `GetObjectRef(k)` returns `(v, true)` and `GetObjectRef` of
every other key returns what it returned before; `JsonData`, `Completed`, `Result` and the
completion channel are unchanged; and on a context made with a nil table, a key that no
operation has set returns `(nil, false)`. -/
theorem C18_object_ref_round_trip (ctx : Context) (k : String) (v : Value) :
    (ctx.SetObjectRef k v).GetObjectRef k = some v ∧
    (∀ k1, k1 ≠ k → (ctx.SetObjectRef k v).GetObjectRef k1 = ctx.GetObjectRef k1) ∧
    (ctx.SetObjectRef k v).JsonData = ctx.JsonData ∧
    (ctx.SetObjectRef k v).Completed = ctx.Completed ∧
    (ctx.SetObjectRef k v).Result = ctx.Result ∧
    (ctx.SetObjectRef k v).asyncReturnCh = ctx.asyncReturnCh ∧
    (ctx.ObjectRefs = none → ctx.GetObjectRef k = none) ∧
    (∀ (jsonData : Option JsonMap) (ops : List ContextOp),
      (∀ op ∈ ops, ∀ value, op ≠ .SetObjectRef k value) →
      ((NewContext jsonData none).applyAll ops).GetObjectRef k = none) := by
  refine ⟨?_, ?_, ?_, ?_, ?_, ?_, ?_, ?_⟩
  · unfold Context.SetObjectRef Context.GetObjectRef
    cases ctx.ObjectRefs <;> exact lookup_jsonSet_self _ k v
  · intro k1 hne
    unfold Context.SetObjectRef Context.GetObjectRef
    cases ctx.ObjectRefs with
    | none =>
      simp only
      rw [lookup_jsonSet_other [] k k1 v hne]
      rfl
    | some refs => exact lookup_jsonSet_other refs k k1 v hne
  · unfold Context.SetObjectRef
    cases ctx.ObjectRefs <;> rfl
  · unfold Context.SetObjectRef
    cases ctx.ObjectRefs <;> rfl
  · unfold Context.SetObjectRef
    cases ctx.ObjectRefs <;> rfl
  · unfold Context.SetObjectRef
    cases ctx.ObjectRefs <;> rfl
  · intro h
    simp [Context.GetObjectRef, h]
  · intro jsonData ops hno
    exact GetObjectRef_applyAll_none k ops _ rfl hno

/-- C18, witness: on a context with a nil table, a second key set afterwards leaves the first
one readable. -/
theorem C18_witness :
    (((NewContext none none).SetObjectRef "a" (.int 1)).SetObjectRef "b" (.int 2)).GetObjectRef
      "a" = ((NewContext none none).SetObjectRef "a" (.int 1)).GetObjectRef "a" :=
  (C18_object_ref_round_trip ((NewContext none none).SetObjectRef "a" (.int 1)) "b"
    (.int 2)).2.1 "a" (by decide)

/-! ## Builder: claims C19 and C20 -/

theorem selectGet_selectSet_other (sel : List (SelectKey × StateTree)) (k k1 : SelectKey)
    (child : StateTree) (hne : k1 ≠ k) :
    selectGet (selectSet sel k child) k1 = selectGet sel k1 := by
  unfold selectGet
  induction sel with
  | nil =>
    have hb : (k1 == k) = false := by simpa using hne
    simp [selectSet, List.lookup, hb]
  | cons p rest ih =>
    obtain ⟨k2, t2⟩ := p
    by_cases hk : k2 = k
    · subst hk
      have hb : (k1 == k2) = false := by simpa using hne
      simp [selectSet, List.lookup, hb]
    · simp only [selectSet, hk, if_false, List.lookup_cons]
      cases k1 == k2
      · exact ih
      · rfl

theorem isOptional_optionalSet_other (opt : List (String × Bool)) (k k1 : String)
    (hne : k1 ≠ k) : isOptional (optionalSet opt k) k1 = isOptional opt k1 := by
  unfold isOptional
  induction opt with
  | nil =>
    have hb : (k1 == k) = false := by simpa using hne
    simp [optionalSet, List.lookup, hb]
  | cons p rest ih =>
    obtain ⟨k2, b⟩ := p
    by_cases hk : k2 = k
    · subst hk
      have hb : (k1 == k2) = false := by simpa using hne
      simp [optionalSet, List.lookup, hb]
    · simp only [optionalSet, hk, if_false, List.lookup_cons]
      cases k1 == k2
      · exact ih
      · rfl

/-- C19: `Optional(k, fn)` sets `OptionalParams[k]` to true and registers under `Select[k]` a
leaf without children whose context-handler is `fn`; `OptionalJson` does the same with the
data-handler. `Leaf`, `LeafJson` and `DefaultLeaf` (under the key `*`) register the leaf in the
same way and leave the optional set as it is. In every case the discriminator field of the
node, its handlers, every other child and every other entry of the optional set are
unchanged. -/
theorem C19_builder_registration (stb : StateTreeBuilder) (k : String)
    (fn : Option ContextFunc) (fnJson : Option JsonFunc) :
    (isOptional (stb.Optional k fn).root.OptionalParams k = true ∧
      selectGet (stb.Optional k fn).root.Select (.str k) = some (.mk "" [] [] fn none "") ∧
      (stb.Optional k fn).root.Key = stb.root.Key ∧
      (stb.Optional k fn).root.ContextFunc = stb.root.ContextFunc ∧
      (stb.Optional k fn).root.JsonFunc = stb.root.JsonFunc ∧
      (∀ k1, k1 ≠ .str k →
        selectGet (stb.Optional k fn).root.Select k1 = selectGet stb.root.Select k1) ∧
      (∀ k1, k1 ≠ k →
        isOptional (stb.Optional k fn).root.OptionalParams k1
          = isOptional stb.root.OptionalParams k1)) ∧
    (isOptional (stb.OptionalJson k fnJson).root.OptionalParams k = true ∧
      selectGet (stb.OptionalJson k fnJson).root.Select (.str k)
        = some (.mk "" [] [] none fnJson "") ∧
      (stb.OptionalJson k fnJson).root.Key = stb.root.Key ∧
      (stb.OptionalJson k fnJson).root.ContextFunc = stb.root.ContextFunc ∧
      (stb.OptionalJson k fnJson).root.JsonFunc = stb.root.JsonFunc ∧
      (∀ k1, k1 ≠ .str k →
        selectGet (stb.OptionalJson k fnJson).root.Select k1 = selectGet stb.root.Select k1) ∧
      (∀ k1, k1 ≠ k →
        isOptional (stb.OptionalJson k fnJson).root.OptionalParams k1
          = isOptional stb.root.OptionalParams k1)) ∧
    (selectGet (stb.Leaf k fn).root.Select (.str k) = some (.mk "" [] [] fn none "") ∧
      (stb.Leaf k fn).root.OptionalParams = stb.root.OptionalParams ∧
      (stb.Leaf k fn).root.Key = stb.root.Key ∧
      (∀ k1, k1 ≠ .str k →
        selectGet (stb.Leaf k fn).root.Select k1 = selectGet stb.root.Select k1)) ∧
    (selectGet (stb.LeafJson k fnJson).root.Select (.str k)
        = some (.mk "" [] [] none fnJson "") ∧
      (stb.LeafJson k fnJson).root.OptionalParams = stb.root.OptionalParams ∧
      (stb.LeafJson k fnJson).root.Key = stb.root.Key ∧
      (∀ k1, k1 ≠ .str k →
        selectGet (stb.LeafJson k fnJson).root.Select k1 = selectGet stb.root.Select k1)) ∧
    (selectGet (stb.DefaultLeaf fn).root.Select (.str "*") = some (.mk "" [] [] fn none "") ∧
      (stb.DefaultLeaf fn).root.OptionalParams = stb.root.OptionalParams ∧
      (stb.DefaultLeaf fn).root.Key = stb.root.Key ∧
      (∀ k1, k1 ≠ .str "*" →
        selectGet (stb.DefaultLeaf fn).root.Select k1 = selectGet stb.root.Select k1)) := by
  obtain ⟨root⟩ := stb
  obtain ⟨key, sel, opt, cf, jf, e⟩ := root
  simp only [StateTreeBuilder.Optional, StateTreeBuilder.OptionalJson, StateTreeBuilder.Leaf,
    StateTreeBuilder.LeafJson, StateTreeBuilder.DefaultLeaf, DefaultKey,
    StateTree.OptionalParams, StateTree.Select, StateTree.Key, StateTree.ContextFunc,
    StateTree.JsonFunc]
  refine ⟨⟨isOptional_optionalSet_self opt k, selectGet_selectSet_self sel _ _, trivial, trivial,
      trivial, fun k1 h => selectGet_selectSet_other sel _ k1 _ h,
      fun k1 h => isOptional_optionalSet_other opt k k1 h⟩,
    ⟨isOptional_optionalSet_self opt k, selectGet_selectSet_self sel _ _, trivial, trivial,
      trivial, fun k1 h => selectGet_selectSet_other sel _ k1 _ h,
      fun k1 h => isOptional_optionalSet_other opt k k1 h⟩,
    ⟨selectGet_selectSet_self sel _ _, trivial, trivial,
      fun k1 h => selectGet_selectSet_other sel _ k1 _ h⟩,
    ⟨selectGet_selectSet_self sel _ _, trivial, trivial,
      fun k1 h => selectGet_selectSet_other sel _ k1 _ h⟩,
    ⟨selectGet_selectSet_self sel _ _, trivial, trivial,
      fun k1 h => selectGet_selectSet_other sel _ k1 _ h⟩⟩

/-- C19, witness: registering the optional leaf `verbose` leaves the leaf `a` in place. -/
theorem C19_witness :
    selectGet (((StateTreeBuilder.Create.Key "type").Leaf "a" (some (constHandler "A"))).Optional
        "verbose" (some (constHandler "V"))).root.Select (.str "a")
      = selectGet ((StateTreeBuilder.Create.Key "type").Leaf "a"
        (some (constHandler "A"))).root.Select (.str "a") :=
  (C19_builder_registration ((StateTreeBuilder.Create.Key "type").Leaf "a"
    (some (constHandler "A"))) "verbose" (some (constHandler "V")) none).1.2.2.2.2.2.1
    (.str "a") (by decide)

theorem allChildren_selectSet (p : StateTree → Bool) (sel : List (SelectKey × StateTree))
    (k : SelectKey) (child : StateTree) (hsel : allChildren p sel = true)
    (hchild : child.all p = true) : allChildren p (selectSet sel k child) = true := by
  induction sel with
  | nil => simp [selectSet, allChildren, hchild]
  | cons q rest ih =>
    obtain ⟨k1, t1⟩ := q
    simp only [allChildren, Bool.and_eq_true] at hsel
    by_cases hk : k1 = k
    · simp [selectSet, hk, allChildren, hchild, hsel.2]
    · simp [selectSet, hk, allChildren, hsel.1, ih hsel.2]

mutual
theorem all_mono (p q : StateTree → Bool) :
    ∀ (t : StateTree), (∀ n, p n = true → q n = true) → t.all p = true → t.all q = true
  | .mk key sel opt cf jf e, hpq, h => by
    simp only [StateTree.all, Bool.and_eq_true] at h ⊢
    exact ⟨hpq _ h.1, allChildren_mono p q sel hpq h.2⟩
theorem allChildren_mono (p q : StateTree → Bool) :
    ∀ (sel : List (SelectKey × StateTree)), (∀ n, p n = true → q n = true) →
      allChildren p sel = true → allChildren q sel = true
  | [], _, _ => by simp [allChildren]
  | (_, t) :: rest, hpq, h => by
    simp only [allChildren, Bool.and_eq_true] at h ⊢
    exact ⟨all_mono p q t hpq h.1, allChildren_mono p q rest hpq h.2⟩
end

theorem built_register (key : String) (sel : List (SelectKey × StateTree))
    (opt opt1 : List (String × Bool)) (e : String) (k : SelectKey) (child : StateTree)
    (h : (StateTree.mk key sel opt none none e).all
      (fun n => isLeafShape n || hasNoHandler n) = true)
    (hchild : child.all (fun n => isLeafShape n || hasNoHandler n) = true) :
    (StateTree.mk key (selectSet sel k child) opt1 none none e).all
      (fun n => isLeafShape n || hasNoHandler n) = true := by
  simp only [StateTree.all, Bool.and_eq_true] at h ⊢
  exact ⟨by simp [hasNoHandler, StateTree.ContextFunc, StateTree.JsonFunc],
    allChildren_selectSet _ sel k child h.2 hchild⟩

theorem built_invariant (stb : StateTreeBuilder) (h : Built stb) :
    stb.root.ContextFunc = none ∧ stb.root.JsonFunc = none ∧
    stb.root.all (fun n => isLeafShape n || hasNoHandler n) = true := by
  induction h with
  | Create => exact ⟨rfl, rfl, rfl⟩
  | Key stb key _ ih =>
    obtain ⟨root⟩ := stb
    obtain ⟨k0, sel, opt, cf, jf, e⟩ := root
    simp only [StateTree.ContextFunc, StateTree.JsonFunc] at ih
    obtain ⟨hcf, hjf, hall⟩ := ih
    subst hcf
    subst hjf
    refine ⟨rfl, rfl, ?_⟩
    simp only [StateTreeBuilder.Key, StateTree.all, Bool.and_eq_true] at hall ⊢
    exact ⟨by simp [hasNoHandler, StateTree.ContextFunc, StateTree.JsonFunc], hall.2⟩
  | Leaf stb key fn _ ih =>
    obtain ⟨root⟩ := stb
    obtain ⟨k0, sel, opt, cf, jf, e⟩ := root
    simp only [StateTree.ContextFunc, StateTree.JsonFunc] at ih
    obtain ⟨hcf, hjf, hall⟩ := ih
    subst hcf
    subst hjf
    exact ⟨rfl, rfl, built_register k0 sel opt opt e _ _ hall rfl⟩
  | LeafJson stb key fn _ ih =>
    obtain ⟨root⟩ := stb
    obtain ⟨k0, sel, opt, cf, jf, e⟩ := root
    simp only [StateTree.ContextFunc, StateTree.JsonFunc] at ih
    obtain ⟨hcf, hjf, hall⟩ := ih
    subst hcf
    subst hjf
    exact ⟨rfl, rfl, built_register k0 sel opt opt e _ _ hall rfl⟩
  | DefaultLeaf stb fn _ ih =>
    obtain ⟨root⟩ := stb
    obtain ⟨k0, sel, opt, cf, jf, e⟩ := root
    simp only [StateTree.ContextFunc, StateTree.JsonFunc] at ih
    obtain ⟨hcf, hjf, hall⟩ := ih
    subst hcf
    subst hjf
    exact ⟨rfl, rfl, built_register k0 sel opt opt e _ _ hall rfl⟩
  | DefaultLeafJson stb fn _ ih =>
    obtain ⟨root⟩ := stb
    obtain ⟨k0, sel, opt, cf, jf, e⟩ := root
    simp only [StateTree.ContextFunc, StateTree.JsonFunc] at ih
    obtain ⟨hcf, hjf, hall⟩ := ih
    subst hcf
    subst hjf
    exact ⟨rfl, rfl, built_register k0 sel opt opt e _ _ hall rfl⟩
  | Optional stb key fn _ ih =>
    obtain ⟨root⟩ := stb
    obtain ⟨k0, sel, opt, cf, jf, e⟩ := root
    simp only [StateTree.ContextFunc, StateTree.JsonFunc] at ih
    obtain ⟨hcf, hjf, hall⟩ := ih
    subst hcf
    subst hjf
    exact ⟨rfl, rfl, built_register k0 sel opt (optionalSet opt key) e _ _ hall rfl⟩
  | OptionalJson stb key fn _ ih =>
    obtain ⟨root⟩ := stb
    obtain ⟨k0, sel, opt, cf, jf, e⟩ := root
    simp only [StateTree.ContextFunc, StateTree.JsonFunc] at ih
    obtain ⟨hcf, hjf, hall⟩ := ih
    subst hcf
    subst hjf
    exact ⟨rfl, rfl, built_register k0 sel opt (optionalSet opt key) e _ _ hall rfl⟩
  | Branch stb key builder _ _ ih ihb =>
    obtain ⟨root⟩ := stb
    obtain ⟨k0, sel, opt, cf, jf, e⟩ := root
    simp only [StateTree.ContextFunc, StateTree.JsonFunc] at ih
    obtain ⟨hcf, hjf, hall⟩ := ih
    subst hcf
    subst hjf
    exact ⟨rfl, rfl, built_register k0 sel opt opt e _ _ hall ihb.2.2⟩
  | DefaultBranch stb builder _ _ ih ihb =>
    obtain ⟨root⟩ := stb
    obtain ⟨k0, sel, opt, cf, jf, e⟩ := root
    simp only [StateTree.ContextFunc, StateTree.JsonFunc] at ih
    obtain ⟨hcf, hjf, hall⟩ := ih
    subst hcf
    subst hjf
    exact ⟨rfl, rfl, built_register k0 sel opt opt e _ _ hall ihb.2.2⟩

/-- C20, counterexample: `Create().Build()` is a node with no handler and no children, neither
internal nor leaf; so is the child that `Branch` registers from a new builder. -/
theorem C20_empty_builder_node_has_neither_shape :
    Built StateTreeBuilder.Create ∧
    StateTreeBuilder.Create.Build.Select = [] ∧
    isLeafShape StateTreeBuilder.Create.Build = false ∧
    isInternalShape StateTreeBuilder.Create.Build = false ∧
    StateTreeBuilder.Create.Build.all (fun n => isLeafShape n || isInternalShape n) = false ∧
    Built ((StateTreeBuilder.Create.Key "type").Branch "a" StateTreeBuilder.Create) ∧
    ((StateTreeBuilder.Create.Key "type").Branch "a" StateTreeBuilder.Create).Build.all
      (fun n => isLeafShape n || isInternalShape n) = false := by
  refine ⟨Built.Create, rfl, rfl, rfl, rfl, ?_, rfl⟩
  exact Built.Branch _ _ _ (Built.Key _ _ Built.Create) Built.Create

/-- C20, amended: every node of every tree produced by the builder API with non-nil handlers is
either a leaf (a handler set, children empty) or a node without handler, whose children may be
empty, as they are for the root of a builder on which no child has been registered yet; no
node has both a handler and children, and the root of a builder never has a handler. -/
theorem C20_builder_node_shapes (stb : StateTreeBuilder) (h : Built stb) :
    stb.Build.all (fun n => isLeafShape n || hasNoHandler n) = true ∧
    stb.Build.all (fun n =>
      !((n.ContextFunc.isSome || n.JsonFunc.isSome) && !n.Select.isEmpty)) = true ∧
    hasNoHandler stb.Build = true := by
  obtain ⟨hcf, hjf, hall⟩ := built_invariant stb h
  refine ⟨hall, ?_, ?_⟩
  · exact all_mono _ _ stb.root (by
      intro n hn
      cases hs : n.Select.isEmpty <;>
        cases hc : n.ContextFunc.isSome <;>
          cases hj : n.JsonFunc.isSome <;>
            simp [isLeafShape, hasNoHandler, hs, hc, hj] at hn ⊢) hall
  · simp [StateTreeBuilder.Build, hasNoHandler, hcf, hjf]

/-- C20, witness: the tree of scenario 1. -/
theorem C20_witness :
    treeType.all (fun n => isLeafShape n || hasNoHandler n) = true :=
  (C20_builder_node_shapes _
    (Built.DefaultLeaf _ (constHandler "D")
      (Built.Leaf _ "b" (constHandler "B")
        (Built.Leaf _ "a" (constHandler "A") (Built.Key _ "type" Built.Create))))).1

/-! ## Frame of a run, accessors, rendering, totality: claims C21 to C25 -/

mutual
theorem RunTree_spec (rt : GoRuntime) :
    ∀ (t : StateTree) (depth : Nat) (ctx : Option Context),
      ((∃ v, Run rt depth t ctx = .returned v) → RunTree rt depth t ctx = t) ∧
      (Run rt depth t ctx = .panicked → RunTree rt depth t ctx = t) ∧
      (∀ message, Run rt depth t ctx = .failed message →
        RunTree rt depth t ctx = setErrorAt message t (RunPath rt depth t ctx))
  | .mk key sel opt cf jf e, depth, ctx => by
    cases cf with
    | some f => simp [Run, RunTree, callHandler]
    | none =>
      cases jf with
      | some g =>
        cases ctx with
        | none => simp [Run, RunTree, callHandler]
        | some c => simp [Run, RunTree, callHandler]
      | none =>
        cases hs : selectNext rt depth key (selectKeys sel) opt ctx with
        | descend k =>
          have ih := RunTreeSelect_spec rt sel depth k ctx
          simp only [Run, RunTree, RunPath, Option.isSome_none, Bool.or_self,
            Bool.false_eq_true, if_false, hs]
          refine ⟨fun h => ?_, fun h => ?_, fun message h => ?_⟩
          · rw [ih.1 h]
          · rw [ih.2.1 h]
          · rw [ih.2.2 message h]
            simp [setErrorAt]
        | fail message =>
          simp [Run, RunTree, RunPath, hs, setErrorAt]
        | panic =>
          simp [Run, RunTree, RunPath, hs]
theorem RunTreeSelect_spec (rt : GoRuntime) :
    ∀ (sel : List (SelectKey × StateTree)) (depth : Nat) (k : SelectKey)
      (ctx : Option Context),
      ((∃ v, RunSelect rt depth k sel ctx = .returned v) →
        RunTreeSelect rt depth k sel ctx = sel) ∧
      (RunSelect rt depth k sel ctx = .panicked → RunTreeSelect rt depth k sel ctx = sel) ∧
      (∀ message, RunSelect rt depth k sel ctx = .failed message →
        RunTreeSelect rt depth k sel ctx
          = setErrorAtSelect message sel k (RunPathSelect rt depth k sel ctx))
  | [], depth, k, ctx => by
    simp [RunSelect, RunTreeSelect, setErrorAtSelect]
  | (k1, t) :: rest, depth, k, ctx => by
    by_cases hk : k1 = k
    · have ih := RunTree_spec rt t (depth + 1) ctx
      simp only [RunSelect, RunTreeSelect, RunPathSelect, setErrorAtSelect, hk, if_true]
      refine ⟨fun h => ?_, fun h => ?_, fun message h => ?_⟩
      · rw [ih.1 h]
      · rw [ih.2.1 h]
      · rw [ih.2.2 message h]
    · have ih := RunTreeSelect_spec rt rest depth k ctx
      simp only [RunSelect, RunTreeSelect, RunPathSelect, setErrorAtSelect, hk, if_false]
      refine ⟨fun h => ?_, fun h => ?_, fun message h => ?_⟩
      · rw [ih.1 h]
      · rw [ih.2.1 h]
      · rw [ih.2.2 message h]
end

mutual
theorem handlerCalls_argument (rt : GoRuntime) :
    ∀ (t : StateTree) (depth : Nat) (ctx : Option Context) (n : StateTree),
      handlerCalls rt depth t ctx = [n] →
        Run rt depth t ctx = callHandler n.ContextFunc n.JsonFunc ctx
  | .mk key sel opt cf jf e, depth, ctx, n => by
    cases cf with
    | some f =>
      intro h
      simp only [handlerCalls, Option.isSome_some, Bool.true_or, if_true,
        List.cons.injEq, and_true] at h
      subst h
      simp [Run, StateTree.ContextFunc, StateTree.JsonFunc]
    | none =>
      cases jf with
      | some g =>
        cases ctx with
        | none =>
          intro h
          simp [handlerCalls] at h
        | some c =>
          intro h
          simp only [handlerCalls, Option.isSome_some, Option.isSome_none, Bool.or_true,
            if_true, List.cons.injEq, and_true] at h
          subst h
          simp [Run, StateTree.ContextFunc, StateTree.JsonFunc]
      | none =>
        intro h
        cases hs : selectNext rt depth key (selectKeys sel) opt ctx with
        | descend k =>
          simp only [handlerCalls, Option.isSome_none, Bool.or_self, Bool.false_eq_true,
            if_false, hs] at h
          simp only [Run, Option.isSome_none, Bool.or_self, Bool.false_eq_true, if_false, hs]
          exact handlerCallsSelect_argument rt sel depth k ctx n h
        | fail message => simp [handlerCalls, hs] at h
        | panic => simp [handlerCalls, hs] at h
theorem handlerCallsSelect_argument (rt : GoRuntime) :
    ∀ (sel : List (SelectKey × StateTree)) (depth : Nat) (k : SelectKey)
      (ctx : Option Context) (n : StateTree),
      handlerCallsSelect rt depth k sel ctx = [n] →
        RunSelect rt depth k sel ctx = callHandler n.ContextFunc n.JsonFunc ctx
  | [], depth, k, ctx, n => by
    intro h
    simp [handlerCallsSelect] at h
  | (k1, t) :: rest, depth, k, ctx, n => by
    intro h
    by_cases hk : k1 = k
    · simp only [handlerCallsSelect, hk, if_true] at h
      simp only [RunSelect, hk, if_true]
      exact handlerCalls_argument rt t (depth + 1) ctx n h
    · simp only [handlerCallsSelect, hk, if_false] at h
      simp only [RunSelect, hk, if_false]
      exact handlerCallsSelect_argument rt rest depth k ctx n h
end

/-- C21: `Run` leaves the tree as it is except for the diagnostic. A run that returns the
result of a handler leaves every field of every node unchanged, a stale `ErrorMessage`
included; a run that fails changes only the `ErrorMessage` of the node at the end of the path
it walked, the node where no branch matched. `Run` makes no assignment to the context: the
handler it calls receives the very context `Run` was given. -/
theorem C21_run_changes_only_the_diagnostic (rt : GoRuntime) (depth : Nat) (t : StateTree)
    (ctx : Option Context) :
    ((∃ v, Run rt depth t ctx = .returned v) → RunTree rt depth t ctx = t) ∧
    (∀ message, Run rt depth t ctx = .failed message →
      RunTree rt depth t ctx = setErrorAt message t (RunPath rt depth t ctx)) ∧
    (∀ n, handlerCalls rt depth t ctx = [n] →
      Run rt depth t ctx = callHandler n.ContextFunc n.JsonFunc ctx) := by
  obtain ⟨h1, _, h3⟩ := RunTree_spec rt t depth ctx
  exact ⟨h1, h3, fun n h => handlerCalls_argument rt t depth ctx n h⟩

/-- C21, witness: after a failed run on the tree without wildcard, a run that reaches the leaf
`a` leaves the stale diagnostic of the root in place. -/
theorem C21_witness :
    RunTree rtInsertion 0
      (RunTree rtInsertion 0 treeNoWildcard (some (request [("type", .str "z")])))
      (some (request [("type", .str "a")]))
      = RunTree rtInsertion 0 treeNoWildcard (some (request [("type", .str "z")])) :=
  (C21_run_changes_only_the_diagnostic rtInsertion 0
    (RunTree rtInsertion 0 treeNoWildcard (some (request [("type", .str "z")])))
    (some (request [("type", .str "a")]))).1 ⟨.str "A", rfl⟩

theorem truncQ_three_halves : truncQ (3 / 2) = 1 := by
  have hn : ((3 : ℚ) / 2).num = 3 := by norm_num
  have hd : ((3 : ℚ) / 2).den = 2 := by norm_num
  unfold truncQ
  rw [hn, hd]
  decide

theorem GetInt_float64 (rt : GoRuntime) (ctx : Context) (key : String) (v : ℚ)
    (h : ctx.GetJsonValue key = some (.float64 v))
    (hlo : -(2 : Int) ^ 63 ≤ truncQ v) (hhi : truncQ v < (2 : Int) ^ 63) :
    ctx.GetInt rt key = truncQ v := by
  simp only [Context.GetInt, h, int64OfFloat64]
  rw [if_pos ⟨hlo, hhi⟩]

theorem GetInt_number (rt : GoRuntime) (ctx : Context) (key : String) (s : String)
    (h : ctx.GetJsonValue key = some (.number s)) :
    ctx.GetInt rt key = (parseInt64 s).getD 0 := by
  simp only [Context.GetInt, h]
  cases parseInt64 s <;> rfl

theorem GetFloat_number (parseFloat64 : String → Option ℚ) (ctx1 ctx2 : Context)
    (key : String) (s : String) (v : ℚ) (hparse : parseFloat64 s = some v)
    (h1 : ctx1.GetJsonValue key = some (.number s))
    (h2 : ctx2.GetJsonValue key = some (.float64 v)) :
    ctx1.GetFloat parseFloat64 key = v ∧ ctx2.GetFloat parseFloat64 key = v := by
  simp [Context.GetFloat, h1, h2, hparse]

/-- C22, the code at the failing input: the `float64` 1.5 is read by `GetInt` as 1, its
truncation, but `json.Number("1.5")` is read as 0, since `Int64` fails on a text that is not
an integer and `GetInt` then returns its zero value; the two representations agree on the
integer 3. -/
theorem C22_fractional_json_number_reads_zero :
    (request [("n", .float64 (3 / 2))]).GetInt rtInsertion "n" = 1 ∧
    parseInt64 "1.5" = none ∧
    (request [("n", .number "1.5")]).GetInt rtInsertion "n" = 0 ∧
    (request [("n", .float64 3)]).GetInt rtInsertion "n" = 3 ∧
    (request [("n", .number "3")]).GetInt rtInsertion "n" = 3 := by
  refine ⟨?_, by decide, by decide, rfl, by decide⟩
  rw [GetInt_float64 rtInsertion (request [("n", .float64 (3 / 2))]) "n" (3 / 2) rfl
    (by rw [truncQ_three_halves]; decide) (by rw [truncQ_three_halves]; decide)]
  exact truncQ_three_halves

theorem printChildren_eq (rt : GoRuntime) (depth : Nat) (sel : List (SelectKey × StateTree)) :
    printChildren rt depth sel = sel.map (fun p => (p.1, p.2, print rt (depth + 1) p.2)) := by
  induction sel with
  | nil => simp [printChildren]
  | cons p rest ih =>
    obtain ⟨k, t⟩ := p
    simp [printChildren, ih]

theorem printEntries_last (rt : GoRuntime) (opt : List (String × Bool)) (edgesIndent : String)
    (x : SelectKey × StateTree × Printer) (init : List (SelectKey × StateTree × Printer)) :
    ∀ i, printEntries rt opt edgesIndent (i + init.length + 1) i (init ++ [x]) =
      init.foldr (fun entry text => printEntry rt opt edgesIndent false entry ++ text)
        (printEntry rt opt edgesIndent true x) := by
  induction init with
  | nil =>
    intro i
    simp [printEntries]
  | cons y rest ih =>
    intro i
    have hlen : i + (y :: rest).length + 1 = (i + 1) + rest.length + 1 := by
      simp only [List.length_cons]
      omega
    have hne : ¬ i = i + 1 + rest.length + 1 - 1 := by omega
    rw [hlen]
    simp only [List.cons_append, printEntries, List.foldr_cons, hne, decide_False]
    exact congrArg _ (ih (i + 1))

/-- C23: `String()` describes the tree. The output starts with the line `StateTree`. A node
renders, after its optional key line, one entry for each of its children, in the iteration
order of the map: the entries before the last one use the connector `├─` and the last one
`└─`; the label of an edge is the rendering of the child key, `*` for the wildcard child, with
the suffix `(option)` when it is an optional key; a child with a context-handler is the single
line `<label> → ContextFunc`, a child with only a data-handler the single line
`<label> → JsonFunc`, whatever children it has, and a child without handler is its edge line
followed by its own rendering. -/
theorem C23_rendering (rt : GoRuntime) :
    (∀ t : StateTree, ∃ rest, t.String rt = "StateTree\n" ++ rest) ∧
    (∀ depth key sel opt cf jf e indent last parentEdgeLabel,
      ∃ entries : List (SelectKey × StateTree × Printer),
        (entries.map (fun x => (x.1, x.2.1))).Perm sel ∧
        (∀ x ∈ entries, x.2.2 = print rt (depth + 1) x.2.1) ∧
        ∃ body,
          print rt depth (.mk key sel opt cf jf e) indent last parentEdgeLabel =
            (if indent = "" then "StateTree\n" else "") ++
            (if key ≠ "" ∧ key ≠ parentEdgeLabel then indent ++ "└─ " ++ key ++ ":\n" else "")
            ++ body ∧
          ((entries = [] ∧ body = "") ∨
            ∃ init x, entries = init ++ [x] ∧
              body = init.foldr
                (fun entry text =>
                  printEntry rt opt
                    (if key ≠ "" ∧ key ≠ parentEdgeLabel then indent ++ "   " else indent)
                    false entry ++ text)
                (printEntry rt opt
                  (if key ≠ "" ∧ key ≠ parentEdgeLabel then indent ++ "   " else indent)
                  true x))) ∧
    (∀ opt edgesIndent isLastChild k child (text : Printer),
      (child.ContextFunc.isSome = true →
        printEntry rt opt edgesIndent isLastChild (k, child, text) =
          edgesIndent ++ (if isLastChild then "└─" else "├─") ++ " " ++ edgeLabel rt opt k
            ++ " → " ++ "ContextFunc" ++ "\n") ∧
      (child.ContextFunc.isSome = false → child.JsonFunc.isSome = true →
        printEntry rt opt edgesIndent isLastChild (k, child, text) =
          edgesIndent ++ (if isLastChild then "└─" else "├─") ++ " " ++ edgeLabel rt opt k
            ++ " → " ++ "JsonFunc" ++ "\n") ∧
      (child.ContextFunc.isSome = false → child.JsonFunc.isSome = false →
        printEntry rt opt edgesIndent isLastChild (k, child, text) =
          edgesIndent ++ (if isLastChild then "└─" else "├─") ++ " " ++ edgeLabel rt opt k
            ++ "\n" ++
            text (if isLastChild then edgesIndent ++ "   " else edgesIndent ++ "│  ")
              isLastChild (edgeLabel rt opt k))) ∧
    (∀ opt k,
      (isOptional opt (k.format rt) = true →
        edgeLabel rt opt k = k.format rt ++ "(option)") ∧
      (isOptional opt (k.format rt) = false → edgeLabel rt opt k = k.format rt)) ∧
    (∀ opt, isOptional opt "*" = false → edgeLabel rt opt (.str DefaultKey) = "*") := by
  refine ⟨?_, ?_, ?_, ?_, ?_⟩
  · intro t
    obtain ⟨key, sel, opt, cf, jf, e⟩ := t
    have hassoc : ∀ a b : String, ∃ rest, "StateTree\n" ++ a ++ b = "StateTree\n" ++ rest :=
      fun a b => ⟨a ++ b, String.append_assoc _ _ _⟩
    simp only [StateTree.String, print, if_true]
    exact hassoc _ _
  · intro depth key sel opt cf jf e indent last parentEdgeLabel
    refine ⟨(printChildren rt depth sel).insertionSort
      (fun a b => rt.rangeRank .printEntries depth a.1 ≤ rt.rangeRank .printEntries depth b.1),
      ?_, ?_, ?_⟩
    · have hid : (sel.map (fun p => (p.1, p.2, print rt (depth + 1) p.2))).map
          (fun x : SelectKey × StateTree × Printer => (x.1, x.2.1)) = sel := by
        induction sel with
        | nil => rfl
        | cons p rest ih => simp [ih]
      rw [printChildren_eq]
      have hp := (List.perm_insertionSort
        (fun a b : SelectKey × StateTree × Printer =>
          rt.rangeRank .printEntries depth a.1 ≤ rt.rangeRank .printEntries depth b.1)
        (sel.map (fun p => (p.1, p.2, print rt (depth + 1) p.2)))).map
          (fun x => (x.1, x.2.1))
      rw [hid] at hp
      exact hp
    · intro x hx
      have hx1 := (List.perm_insertionSort _ _).mem_iff.1 hx
      rw [printChildren_eq] at hx1
      obtain ⟨p, _, hp⟩ := List.mem_map.1 hx1
      rw [← hp]
    · refine ⟨_, rfl, ?_⟩
      rcases List.eq_nil_or_concat
        ((printChildren rt depth sel).insertionSort
          (fun a b =>
            rt.rangeRank .printEntries depth a.1 ≤ rt.rangeRank .printEntries depth b.1))
        with hnil | ⟨init, x, hcons⟩
      · left
        exact ⟨hnil, by rw [hnil]; rfl⟩
      · right
        rw [List.concat_eq_append] at hcons
        refine ⟨init, x, hcons, ?_⟩
        rw [hcons]
        have := printEntries_last rt opt
          (if key ≠ "" ∧ key ≠ parentEdgeLabel then indent ++ "   " else indent) x init 0
        simpa using this
  · intro opt edgesIndent isLastChild k child text
    refine ⟨?_, ?_, ?_⟩
    · intro h
      cases isLastChild <;> simp [printEntry, h]
    · intro h1 h2
      cases isLastChild <;> simp [printEntry, h1, h2]
    · intro h1 h2
      cases isLastChild <;> simp [printEntry, h1, h2]
  · intro opt k
    constructor
    · intro h
      unfold edgeLabel
      by_cases hk : k.format rt = DefaultKey
      · have h2 : isOptional opt "*" = true := by
          rw [hk] at h
          exact h
        simp [hk, h2, DefaultKey]
      · simp [hk, h]
    · intro h
      unfold edgeLabel
      by_cases hk : k.format rt = DefaultKey
      · have h2 : isOptional opt "*" = false := by
          rw [hk] at h
          exact h
        simp [hk, h2, DefaultKey]
      · simp [hk, h]
  · intro opt h
    simp [edgeLabel, SelectKey.format, DefaultKey, h]

/-- C23, witness: the rendering of scenario 2, and the entry of a child with a context-handler
that is not the last one. -/
theorem C23_witness :
    treeMode.String rtInsertion
      = "StateTree\n└─ mode:\n   ├─ * → ContextFunc\n   └─ verbose(option) → ContextFunc\n" ∧
    printEntry rtInsertion [] "   " false
        (.str "a", .mk "" [] [] (some (constHandler "A")) none "", fun _ _ _ => "")
      = "   " ++ "├─" ++ " " ++ edgeLabel rtInsertion [] (.str "a") ++ " → " ++ "ContextFunc"
        ++ "\n" :=
  ⟨rfl, ((C23_rendering rtInsertion).2.2.1 [] "   " false (.str "a")
    (.mk "" [] [] (some (constHandler "A")) none "") (fun _ _ _ => "")).1 rfl⟩

theorem convertTokenToKey_scalar (rt : GoRuntime) (v : Value) (h : v.isScalar = true) :
    ∃ k, (convertTokenToKey rt v).toKey? = some k := by
  cases v with
  | nil => exact ⟨_, rfl⟩
  | bool b => exact ⟨_, rfl⟩
  | float64 q =>
    by_cases hq : q = float64OfInt64 (int64OfFloat64 rt q)
    · exact ⟨.int64 (int64OfFloat64 rt q), by simp [convertTokenToKey, ← hq, Value.toKey?]⟩
    · exact ⟨.float64 q, by simp [convertTokenToKey, hq, Value.toKey?]⟩
  | int n => exact ⟨_, rfl⟩
  | int64 n => exact ⟨_, rfl⟩
  | number s => exact ⟨_, rfl⟩
  | str s =>
    by_cases hs : s = ""
    · exact ⟨.str DefaultKey, by simp [convertTokenToKey, hs, Value.toKey?]⟩
    · exact ⟨.str s, by simp [convertTokenToKey, hs, Value.toKey?]⟩
  | arr xs => simp [Value.isScalar] at h
  | obj m => simp [Value.isScalar] at h

theorem scalarData_get (c : Context) (h : c.scalarData = true) (key : String) (v : Value)
    (hv : c.GetJsonValue key = some v) : v.isScalar = true := by
  unfold Context.GetJsonValue at hv
  unfold Context.scalarData at h
  cases hd : c.JsonData with
  | none =>
    rw [hd] at hv
    cases hv
  | some data =>
    rw [hd] at hv h
    obtain ⟨l1, l2, hl, _⟩ := List.lookup_eq_some_iff.1 hv
    have hmem : (key, v) ∈ data := by
      rw [hl]
      simp
    exact List.all_eq_true.1 h (key, v) hmem

theorem directLookup_scalar (rt : GoRuntime) (key : String) (keys : List SelectKey)
    (c : Context) (h : c.scalarData = true) :
    ∃ k0 next, directLookup rt key keys (some c) = .ok k0 next := by
  by_cases hk : key = ""
  · exact ⟨_, _, directLookup_absent rt key keys c (Or.inl hk)⟩
  · cases hv : c.GetJsonValue key with
    | none => exact ⟨_, _, directLookup_absent rt key keys c (Or.inr hv)⟩
    | some token =>
      obtain ⟨k, hconv⟩ := convertTokenToKey_scalar rt token (scalarData_get c h key token hv)
      exact ⟨_, _, directLookup_present rt key keys c token k hk hv hconv⟩

theorem selectNext_total (rt : GoRuntime) (depth : Nat) (key : String)
    (keys : List SelectKey) (opt : List (String × Bool)) (c : Context)
    (h : c.scalarData = true) (hw : .str DefaultKey ∈ keys) :
    ∃ k, k ∈ keys ∧ selectNext rt depth key keys opt (some c) = .descend k := by
  have hex : ∃ k, selectNext rt depth key keys opt (some c) = .descend k := by
    obtain ⟨k0, next, hd⟩ := directLookup_scalar rt key keys c h
    cases next with
    | some k => exact ⟨k, selectNext_of_direct rt depth key keys opt _ k0 k hd⟩
    | none =>
      rw [selectNext_of_no_direct rt depth key keys opt c k0 hd]
      cases scanOptional rt depth keys opt c with
      | some k => exact ⟨k, rfl⟩
      | none => exact ⟨.str DefaultKey, by simp [hw]⟩
  obtain ⟨k, hk⟩ := hex
  exact ⟨k, selectNext_descend_mem rt depth key keys opt _ k hk, hk⟩

mutual
theorem Run_total (rt : GoRuntime) (c : Context) (hscalar : c.scalarData = true) :
    ∀ (t : StateTree) (depth : Nat), t.all hasHandlerOrWildcard = true →
      (∃ v, Run rt depth t (some c) = .returned v) ∧
      (RunPath rt depth t (some c)).length ≤ t.height
  | .mk key sel opt cf jf e, depth, hall => by
    simp only [StateTree.all, Bool.and_eq_true] at hall
    obtain ⟨hnode, hchildren⟩ := hall
    cases cf with
    | some f => simp [Run, RunPath, callHandler]
    | none =>
      cases jf with
      | some g => simp [Run, RunPath, callHandler]
      | none =>
        have hw : SelectKey.str DefaultKey ∈ selectKeys sel := by
          simpa [hasHandlerOrWildcard, StateTree.ContextFunc, StateTree.JsonFunc,
            StateTree.Select] using hnode
        obtain ⟨k, hmem, hstep⟩ := selectNext_total rt depth key (selectKeys sel) opt c hscalar hw
        have ih := RunSelect_total rt c hscalar sel depth k hchildren hmem
        simp only [Run, RunPath, Option.isSome_none, Bool.or_self, Bool.false_eq_true,
          if_false, hstep, List.length_cons, StateTree.height]
        exact ih
theorem RunSelect_total (rt : GoRuntime) (c : Context) (hscalar : c.scalarData = true) :
    ∀ (sel : List (SelectKey × StateTree)) (depth : Nat) (k : SelectKey),
      allChildren hasHandlerOrWildcard sel = true → k ∈ selectKeys sel →
      (∃ v, RunSelect rt depth k sel (some c) = .returned v) ∧
      (RunPathSelect rt depth k sel (some c)).length + 1 ≤ heightChildren sel
  | [], depth, k, _, hmem => by
    simp [selectKeys] at hmem
  | (k1, t) :: rest, depth, k, hall, hmem => by
    simp only [allChildren, Bool.and_eq_true] at hall
    by_cases hk : k1 = k
    · have ih := Run_total rt c hscalar t (depth + 1) hall.1
      simp only [RunSelect, RunPathSelect, heightChildren, hk, if_true]
      exact ⟨ih.1, by have := ih.2; omega⟩
    · have hmem1 : k ∈ selectKeys rest := by
        simp only [selectKeys, List.map_cons, List.mem_cons] at hmem
        rcases hmem with h | h
        · exact absurd h.symm hk
        · exact h
      have ih := RunSelect_total rt c hscalar rest depth k hall.2 hmem1
      simp only [RunSelect, RunPathSelect, heightChildren, hk, if_false]
      exact ⟨ih.1, by have := ih.2; omega⟩
end

/-- C24: wildcard totality. On a tree in which every node without handler has a wildcard child,
and a context whose request values are all scalars, `Run` returns the result of a handler: it
does not fail and does not panic, it makes at most as many descents as the tree is high,
exactly one handler is called, at a node that has one, and the tree is left unchanged, no
`ErrorMessage` being written. -/
theorem C24_wildcard_totality (rt : GoRuntime) (depth : Nat) (t : StateTree) (c : Context)
    (hwild : t.all hasHandlerOrWildcard = true) (hscalar : c.scalarData = true) :
    (∃ v, Run rt depth t (some c) = .returned v) ∧
    (RunPath rt depth t (some c)).length ≤ t.height ∧
    (∃ n, handlerCalls rt depth t (some c) = [n] ∧
      (n.ContextFunc.isSome = true ∨ n.JsonFunc.isSome = true) ∧
      Run rt depth t (some c) = callHandler n.ContextFunc n.JsonFunc (some c)) ∧
    RunTree rt depth t (some c) = t := by
  obtain ⟨hret, hpath⟩ := Run_total rt c hscalar t depth hwild
  obtain ⟨_, hiff, hcall, _⟩ := handlerCalls_spec rt t depth (some c)
  have hlen := hiff.2 hret
  obtain ⟨n, hn⟩ := List.length_eq_one.1 hlen
  refine ⟨hret, hpath, ⟨n, hn, ?_, ?_⟩, (RunTree_spec rt t depth (some c)).1 hret⟩
  · exact hcall n (by rw [hn]; exact List.mem_singleton_self n)
  · exact handlerCalls_argument rt t depth (some c) n hn

/-- C24, witness: scenario 1, whose root has a wildcard leaf, on a request with a number. -/
theorem C24_witness :
    ∃ v, Run rtInsertion 0 treeType (some (request [("type", .float64 7)])) = .returned v :=
  (C24_wildcard_totality rtInsertion 0 treeType (request [("type", .float64 7)]) rfl
    rfl).1

theorem selectKeys_selectSet_str (sel : List (SelectKey × StateTree)) (k : String)
    (child : StateTree) (h : (selectKeys sel).all SelectKey.isStr = true) :
    (selectKeys (selectSet sel (.str k) child)).all SelectKey.isStr = true := by
  induction sel with
  | nil => simp [selectSet, selectKeys, SelectKey.isStr]
  | cons p rest ih =>
    obtain ⟨k1, t1⟩ := p
    simp only [selectKeys, List.map_cons, List.all_cons, Bool.and_eq_true] at h
    by_cases hk : k1 = .str k
    · simp only [selectSet, hk, if_true, selectKeys, List.map_cons, List.all_cons,
        Bool.and_eq_true]
      exact ⟨rfl, h.2⟩
    · simp only [selectSet, hk, if_false, selectKeys, List.map_cons, List.all_cons,
        Bool.and_eq_true]
      exact ⟨h.1, ih h.2⟩

theorem string_keys_register (key : String) (sel : List (SelectKey × StateTree))
    (opt opt1 : List (String × Bool)) (cf : Option ContextFunc) (jf : Option JsonFunc)
    (e : String) (k : String) (child : StateTree)
    (h : (StateTree.mk key sel opt cf jf e).all hasStringKeys = true)
    (hchild : child.all hasStringKeys = true) :
    (StateTree.mk key (selectSet sel (.str k) child) opt1 cf jf e).all hasStringKeys = true := by
  simp only [StateTree.all, Bool.and_eq_true, hasStringKeys, StateTree.Select] at h ⊢
  exact ⟨selectKeys_selectSet_str sel k child h.1, allChildren_selectSet _ sel _ child h.2 hchild⟩

theorem built_string_keys (stb : StateTreeBuilder) (h : Built stb) :
    stb.root.all hasStringKeys = true := by
  induction h with
  | Create => rfl
  | Key stb key _ ih =>
    obtain ⟨root⟩ := stb
    obtain ⟨k0, sel, opt, cf, jf, e⟩ := root
    simpa only [StateTreeBuilder.Key, StateTree.all, hasStringKeys, StateTree.Select] using ih
  | Leaf stb key fn _ ih =>
    obtain ⟨root⟩ := stb
    obtain ⟨k0, sel, opt, cf, jf, e⟩ := root
    exact string_keys_register k0 sel opt opt cf jf e _ _ ih rfl
  | LeafJson stb key fn _ ih =>
    obtain ⟨root⟩ := stb
    obtain ⟨k0, sel, opt, cf, jf, e⟩ := root
    exact string_keys_register k0 sel opt opt cf jf e _ _ ih rfl
  | DefaultLeaf stb fn _ ih =>
    obtain ⟨root⟩ := stb
    obtain ⟨k0, sel, opt, cf, jf, e⟩ := root
    exact string_keys_register k0 sel opt opt cf jf e _ _ ih rfl
  | DefaultLeafJson stb fn _ ih =>
    obtain ⟨root⟩ := stb
    obtain ⟨k0, sel, opt, cf, jf, e⟩ := root
    exact string_keys_register k0 sel opt opt cf jf e _ _ ih rfl
  | Optional stb key fn _ ih =>
    obtain ⟨root⟩ := stb
    obtain ⟨k0, sel, opt, cf, jf, e⟩ := root
    exact string_keys_register k0 sel opt (optionalSet opt key) cf jf e _ _ ih rfl
  | OptionalJson stb key fn _ ih =>
    obtain ⟨root⟩ := stb
    obtain ⟨k0, sel, opt, cf, jf, e⟩ := root
    exact string_keys_register k0 sel opt (optionalSet opt key) cf jf e _ _ ih rfl
  | Branch stb key builder _ _ ih ihb =>
    obtain ⟨root⟩ := stb
    obtain ⟨k0, sel, opt, cf, jf, e⟩ := root
    exact string_keys_register k0 sel opt opt cf jf e _ _ ih ihb
  | DefaultBranch stb builder _ _ ih ihb =>
    obtain ⟨root⟩ := stb
    obtain ⟨k0, sel, opt, cf, jf, e⟩ := root
    exact string_keys_register k0 sel opt opt cf jf e _ _ ih ihb

theorem convertTokenToKey_number_or_bool (rt : GoRuntime) (token : Value)
    (h : (∃ b, token = .bool b) ∨ (∃ v, token = .float64 v) ∨ (∃ n, token = .int n) ∨
      (∃ n, token = .int64 n) ∨ (∃ s, token = .number s)) :
    ∃ k, (convertTokenToKey rt token).toKey? = some k ∧ k.isStr = false := by
  rcases h with ⟨b, rfl⟩ | ⟨v, rfl⟩ | ⟨n, rfl⟩ | ⟨n, rfl⟩ | ⟨s, rfl⟩
  · exact ⟨.bool b, rfl, rfl⟩
  · by_cases hv : v = float64OfInt64 (int64OfFloat64 rt v)
    · exact ⟨.int64 (int64OfFloat64 rt v),
        by simp [convertTokenToKey, ← hv, Value.toKey?], rfl⟩
    · exact ⟨.float64 v, by simp [convertTokenToKey, hv, Value.toKey?], rfl⟩
  · exact ⟨.int n, rfl, rfl⟩
  · exact ⟨.int64 n, rfl, rfl⟩
  · exact ⟨.number s, rfl, rfl⟩

/-- C25: every node of a tree built with the builder API has its children under string keys
only. At a node whose children are all under string keys, a discriminator value that is a
boolean or a number (a `float64`, an `int`, an `int64` or a `json.Number`) has a canonical key
that is not a string, so the direct lookup finds no child, and the next node is the one of the
optional scan, else the wildcard child, else the run fails with the diagnostic for that key. -/
theorem C25_builder_keys_miss_numbers_and_booleans (rt : GoRuntime) :
    (∀ stb, Built stb → stb.Build.all hasStringKeys = true) ∧
    (∀ depth key keys opt c token,
      keys.all SelectKey.isStr = true → key ≠ "" → c.GetJsonValue key = some token →
      ((∃ b, token = .bool b) ∨ (∃ v, token = .float64 v) ∨ (∃ n, token = .int n) ∨
        (∃ n, token = .int64 n) ∨ (∃ s, token = .number s)) →
      ∃ k0, k0.isStr = false ∧ k0 ∉ keys ∧
        (convertTokenToKey rt token).toKey? = some k0 ∧
        directLookup rt key keys (some c) = .ok k0 none ∧
        selectNext rt depth key keys opt (some c) =
          match scanOptional rt depth keys opt c with
          | some k => .descend k
          | none =>
            if .str DefaultKey ∈ keys then .descend (.str DefaultKey)
            else .fail (errorMessage rt depth key keys opt k0)) := by
  refine ⟨fun stb h => built_string_keys stb h, ?_⟩
  intro depth key keys opt c token hkeys hkey hval htoken
  obtain ⟨k0, hconv, hstr⟩ := convertTokenToKey_number_or_bool rt token htoken
  have hnot : k0 ∉ keys := by
    intro hmem
    have := List.all_eq_true.1 hkeys k0 hmem
    rw [hstr] at this
    cases this
  have hd := directLookup_present rt key keys c token k0 hkey hval hconv
  rw [if_neg hnot] at hd
  exact ⟨k0, hstr, hnot, hconv, hd, selectNext_of_no_direct rt depth key keys opt c k0 hd⟩

/-- C25, witness: the children `2` and `true` registered by the builder are missed by the
request values 2 and true, which end at the wildcard leaf. -/
theorem C25_witness :
    (((StateTreeBuilder.Create.Key "n").Leaf "2" (some (constHandler "two"))).Leaf "true"
      (some (constHandler "yes"))).Build.all hasStringKeys = true ∧
    Run rtInsertion 0
      ((((StateTreeBuilder.Create.Key "n").Leaf "2" (some (constHandler "two"))).Leaf "true"
        (some (constHandler "yes"))).DefaultLeaf (some (constHandler "D"))).Build
      (some (request [("n", .float64 2)])) = .returned (.str "D") ∧
    Run rtInsertion 0
      ((((StateTreeBuilder.Create.Key "n").Leaf "2" (some (constHandler "two"))).Leaf "true"
        (some (constHandler "yes"))).DefaultLeaf (some (constHandler "D"))).Build
      (some (request [("n", .bool true)])) = .returned (.str "D") :=
  ⟨(C25_builder_keys_miss_numbers_and_booleans rtInsertion).1 _
    (Built.Leaf _ "true" (constHandler "yes")
      (Built.Leaf _ "2" (constHandler "two") (Built.Key _ "n" Built.Create))), rfl, rfl⟩

end Statetree
